import Mathlib

/-!
Verification of the Sandlot draft-pick ownership ledger and keeper-cost
engine (`scripts/verify-draft-board.py` and `scripts/validate-keeper-costs.py`),
as a shallow embedding in Lean.
-/

namespace Sandlot

/-! ## Constants (verify-draft-board.py) -/

def DRAFT_ORDER : List String :=
  ["Pudge", "Nick", "Web", "Tom", "Tyler", "Thomas", "Chris", "Alex", "Greasy", "Bob", "Mike", "Sean"]

def ROUNDS : Nat := 27

def NA_ROUNDS : List Nat := [24, 25, 26, 27]

/-! ## Draft board data model

`DraftBoard.picks` in the Python source is a dict of dicts
`picks[round][slot] = {"originalOwner", "currentOwner", "path"}`; we embed it
as an association list keyed by the `(round, slot)` pair, in insertion order
(round ascending, slot ascending for boards built by `__init__`).
-/

structure Pick where
  originalOwner : String
  currentOwner : String
  path : List String
deriving Repr, DecidableEq

structure DraftBoard where
  picks : List ((Nat × Nat) × Pick)
deriving Repr, DecidableEq

inductive LedgerError where
  | keyError : Nat → Nat → LedgerError
  | ownershipConflict : String → Nat → Nat → String → String → String → LedgerError
  | noPicksHeld : String → Nat → LedgerError
  | noMatchingPick : String → Nat → String → String → LedgerError
deriving Repr, DecidableEq

namespace DraftBoard

/-- `DraftBoard.__init__`: a clean 27-round by 12-slot board, each slot owned by
the manager at that draft position, `path` seeded with the original owner. -/
def init : DraftBoard :=
  ⟨(List.range ROUNDS).flatMap (fun rIdx =>
      DRAFT_ORDER.enum.map (fun p =>
        ((rIdx + 1, p.1 + 1), ⟨p.2, p.2, [p.2]⟩)))⟩

/-- Reading `self.picks[rd][slot]`; `none` where Python would raise `KeyError`. -/
def lookupPick (b : DraftBoard) (rd slot : Nat) : Option Pick :=
  (b.picks.find? (fun e => e.1 == (rd, slot))).map (·.2)

/-- `DraftBoard.get_owner_picks_in_round`. -/
def get_owner_picks_in_round (b : DraftBoard) (owner : String) (rd : Nat) : List Nat :=
  (((b.picks.filter (fun e => e.1.1 == rd && e.2.currentOwner == owner)).map
      (fun e => e.1.2)).insertionSort (· ≤ ·))

/-- `max(slots)` of a Python list (`none` on the empty list). -/
def list_max : List Nat → Option Nat
  | [] => none
  | x :: xs => some (xs.foldl Nat.max x)

/-- `min(slots)` of a Python list (`none` on the empty list). -/
def list_min : List Nat → Option Nat
  | [] => none
  | x :: xs => some (xs.foldl Nat.min x)

/-- `DraftBoard.get_worst_pick`: odd rounds take the maximum held slot, even
rounds the minimum; raises when the owner holds no picks in the round. -/
def get_worst_pick (b : DraftBoard) (owner : String) (rd : Nat) : Except LedgerError Nat :=
  let slots := get_owner_picks_in_round b owner rd
  match list_max slots, list_min slots with
  | some mx, some mn => if rd % 2 == 1 then .ok mx else .ok mn
  | _, _ => .error (.noPicksHeld owner rd)

/-- `DraftBoard.transfer_pick`: guard `currentOwner == from_owner`, then set
`currentOwner = to_owner` and append `to_owner` to `path`. -/
def transfer_pick (b : DraftBoard) (rd slot : Nat) (from_owner to_owner trade_desc : String) :
    Except LedgerError DraftBoard :=
  match b.lookupPick rd slot with
  | none => .error (.keyError rd slot)
  | some pick =>
    if pick.currentOwner ≠ from_owner then
      .error (.ownershipConflict trade_desc rd slot pick.originalOwner pick.currentOwner from_owner)
    else
      .ok ⟨b.picks.map (fun e =>
        if e.1 == (rd, slot) then
          (e.1, { e.2 with currentOwner := to_owner, path := e.2.path ++ [to_owner] })
        else e)⟩

/-- `DraftBoard.transfer_worst_pick`; returns the transferred slot. -/
def transfer_worst_pick (b : DraftBoard) (rd : Nat) (from_owner to_owner trade_desc : String) :
    Except LedgerError (DraftBoard × Nat) :=
  match b.get_worst_pick from_owner rd with
  | .error e => .error e
  | .ok slot => (b.transfer_pick rd slot from_owner to_owner trade_desc).map (fun b2 => (b2, slot))

/-- `DraftBoard.transfer_specific_pick`: scan the round in slot order for the
first pick whose `originalOwner` and `currentOwner` match, transfer it. -/
def transfer_specific_pick (b : DraftBoard) (rd : Nat)
    (original_owner from_owner to_owner trade_desc : String) :
    Except LedgerError (DraftBoard × Nat) :=
  match b.picks.find? (fun e =>
      e.1.1 == rd && e.2.originalOwner == original_owner && e.2.currentOwner == from_owner) with
  | some e => (b.transfer_pick rd e.1.2 from_owner to_owner trade_desc).map (fun b2 => (b2, e.1.2))
  | none => .error (.noMatchingPick trade_desc rd original_owner from_owner)

end DraftBoard

/-! ## Ledger snapshot format (`to_json` / `draft-board.json`) -/

structure SnapshotPick where
  slot : Nat
  originalOwner : String
  currentOwner : String
  traded : Bool
  path : List String
deriving Repr, DecidableEq

structure Snapshot where
  draftOrder : List String
  rounds : Nat
  naRounds : List Nat
  picks : List (Nat × List SnapshotPick)
deriving Repr, DecidableEq

/-- Sequence a Python `for` loop that builds a list, where each step may fail
(`none` where the source would raise). -/
def collectM : List α → (α → Option β) → Option (List β)
  | [], _ => some []
  | a :: as, f =>
    match f a, collectM as f with
    | some b, some bs => some (b :: bs)
    | _, _ => none

namespace DraftBoard

/-- `DraftBoard.to_json`: export the board to the `draft-board.json` shape;
`none` where the Python indexing `self.picks[rd][slot]` would raise. -/
def to_json (b : DraftBoard) : Option Snapshot :=
  match collectM (List.range ROUNDS) (fun rIdx =>
      (collectM (List.range 12) (fun sIdx =>
        (b.lookupPick (rIdx + 1) (sIdx + 1)).map (fun pick =>
          SnapshotPick.mk (sIdx + 1) pick.originalOwner pick.currentOwner
            (pick.originalOwner != pick.currentOwner) pick.path))).map
        (fun row => (rIdx + 1, row))) with
  | none => none
  | some rows => some ⟨DRAFT_ORDER, ROUNDS, NA_ROUNDS, rows⟩

end DraftBoard

/-- Modelled from the spec: reconstructing a ledger from a persisted snapshot.
The repository exports snapshots with `DraftBoard.to_json` and reads them back
from `draft-board.json`, but no explicit reconstruction function exists under
`scripts/`; per the spec a snapshot pick entry carries `slot`, `originalOwner`,
`currentOwner` and `path`, grouped by round. -/
def board_of_snapshot (s : Snapshot) : DraftBoard :=
  ⟨s.picks.flatMap (fun row =>
    row.2.map (fun sp => ((row.1, sp.slot), ⟨sp.originalOwner, sp.currentOwner, sp.path⟩)))⟩

/-! ## Reconciliation comparator (`compare_with_site`) -/

structure Discrepancy where
  round : Nat
  slot : Nat
  originalOwner : String
  script_says : String
  site_says : String
  script_path : List String
  site_path : List String
deriving Repr, DecidableEq

/-- Look up the persisted snapshot's pick for one cell
(`site_picks = {p["slot"]: p ...}; site_picks[slot]` in the source). -/
def site_pick_at (site : Snapshot) (rd slot : Nat) : Option SnapshotPick :=
  match site.picks.find? (fun row => row.1 == rd) with
  | none => none
  | some row => row.2.find? (fun p => p.slot == slot)

/-- One iteration of the comparison loop body at cell `(rd, slot)`:
a singleton discrepancy on an owner mismatch, no record otherwise,
`none` where the source's dict indexing would raise. -/
def compare_cell (b : DraftBoard) (site : Snapshot) (rd slot : Nat) : Option (List Discrepancy) :=
  match b.lookupPick rd slot, site_pick_at site rd slot with
  | some our_pick, some site_pick =>
    if our_pick.currentOwner ≠ site_pick.currentOwner then
      some [⟨rd, slot, our_pick.originalOwner, our_pick.currentOwner, site_pick.currentOwner,
             our_pick.path, site_pick.path⟩]
    else some []
  | _, _ => none

/-- The flat list of grid cells `(rd, slot)` the comparison loops walk. -/
def gridCells : List (Nat × Nat) :=
  (List.range ROUNDS).flatMap (fun rIdx =>
    (List.range 12).map (fun sIdx => (rIdx + 1, sIdx + 1)))

/-- `compare_with_site`: collect a discrepancy record for every cell whose
`currentOwner` differs between the computed board and the persisted snapshot. -/
def compare_with_site (b : DraftBoard) (site : Snapshot) : Option (List Discrepancy) :=
  (collectM gridCells (fun c => compare_cell b site c.1 c.2)).map List.flatten

/-! ## Keeper-cost engine (`validate-keeper-costs.py`) -/

def TEAM_NAMES : List (String × String) :=
  [("1", "Chris"), ("2", "Alex"), ("3", "Pudge"), ("4", "Sean"), ("5", "Tom"),
   ("6", "Greasy"), ("7", "Web"), ("8", "Nick"), ("9", "Bob"), ("10", "Mike"),
   ("11", "Thomas"), ("12", "Tyler")]

/-- Split a character list on a non-empty separator, Python `str.split`
style; the fuel argument (at least the list's length) keeps the recursion
structural so that concrete instances evaluate inside the kernel. -/
def splitSepFuel (sep : List Char) : Nat → List Char → List Char → List (List Char)
  | 0, acc, l => [acc.reverse ++ l]
  | _ + 1, acc, [] => [acc.reverse]
  | fuel + 1, acc, c :: rest =>
    if sep.isPrefixOf (c :: rest) then
      acc.reverse :: splitSepFuel sep fuel [] (List.drop sep.length (c :: rest))
    else splitSepFuel sep fuel (c :: acc) rest

/-- `s.split(sep)` of the source's Python. -/
def string_split (s sep : String) : List String :=
  (splitSepFuel sep.data (s.data.length + 1) [] s.data).map (fun cs => ⟨cs⟩)

/-- `get_team_num`: last component of a Yahoo team key split on `".t."`. -/
def get_team_num (team_key : String) : String :=
  (string_split team_key ".t.").getLastD ""

/-- `get_team_name`: friendly name, falling back to the raw number. -/
def get_team_name (team_key : String) : String :=
  let num := get_team_num team_key
  (((TEAM_NAMES.find? (fun e => e.1 == num)).map (fun e => e.2)).getD ("Team " ++ num))

/-- Python truthiness of an optional integer (`None` and `0` are falsy). -/
def pyTruthy : Option Nat → Bool
  | none => false
  | some n => n != 0

/-- `ecr_to_round`: `min(math.ceil(rank / 12), 23)`, passing `None` through. -/
def ecr_to_round (ecr_rank : Option Nat) : Option Nat :=
  match ecr_rank with
  | none => none
  | some r => some (min (((r : ℚ) / 12).ceil.toNat) 23)

/-! ### Transaction history builder -/

/-- One acquisition-chain event dict; fields absent from a given event kind in
the Python dicts are `none` here. -/
structure ChainEvent where
  etype : String
  team : Option String
  source : Option String
  from_team : Option String
  to_team : Option String
  round : Option Nat
  timestamp : Nat
deriving Repr, DecidableEq

def draftEvent (round : Nat) (team : String) : ChainEvent :=
  ⟨"draft", some team, none, none, none, some round, 0⟩

def faPickupEvent (team : Option String) (source : String) (ts : Nat) : ChainEvent :=
  ⟨"fa_pickup", team, some source, none, none, none, ts⟩

def dropEvent (team : Option String) (ts : Nat) : ChainEvent :=
  ⟨"drop", team, none, none, none, none, ts⟩

def tradeEvent (fromT toT : Option String) (ts : Nat) : ChainEvent :=
  ⟨"trade", none, none, fromT, toT, none, ts⟩

structure PlayerHistory where
  drafted_round : Option Nat
  drafted_by : Option String
  was_dropped : Bool
  dropped_by : List (Option String)
  fa_pickups : List (Option String × Nat)
  trades : List (Option String × Option String × Nat)
  last_team : Option String
  acquisition_chain : List ChainEvent
deriving Repr, DecidableEq

def emptyHistory : PlayerHistory :=
  ⟨none, none, false, [], [], [], none, []⟩

/-- A parsed `draft_2025[player_id]` record. -/
structure DraftInfo where
  round : Nat
  pick : Nat
  team_key : String
  team_num : String
deriving Repr, DecidableEq

/-- One parsed player movement inside a transaction. -/
structure TxnPlayer where
  player_id : String
  player_name : String
  action : String
  source_type : String
  source_team_key : String
  dest_type : String
  dest_team_key : String
deriving Repr, DecidableEq

/-- One parsed transaction (output shape of `parse_transactions`). -/
structure Txn where
  ttype : String
  timestamp : Nat
  transaction_id : String
  players : List TxnPlayer
deriving Repr, DecidableEq

abbrev HistoryMap := List (String × PlayerHistory)

def getHistory (m : HistoryMap) (pid : String) : Option PlayerHistory :=
  (m.find? (fun e => e.1 == pid)).map (fun e => e.2)

/-- `history[pid] = h`: overwrite in place, or append a new entry. -/
def setHistory (m : HistoryMap) (pid : String) (h : PlayerHistory) : HistoryMap :=
  if m.any (fun e => e.1 == pid) then
    m.map (fun e => if e.1 == pid then (pid, h) else e)
  else m ++ [(pid, h)]

/-- `get_team_num(player["dest_team_key"]) if player["dest_team_key"] else None`. -/
def dest_team_of (player : TxnPlayer) : Option String :=
  if player.dest_team_key ≠ "" then some (get_team_num player.dest_team_key) else none

/-- `get_team_num(player["source_team_key"]) if ... else None`. -/
def src_team_of (player : TxnPlayer) : Option String :=
  if player.source_team_key ≠ "" then some (get_team_num player.source_team_key) else none

/-- Source team of a drop, falling back to the last known team. -/
def drop_src_of (h : PlayerHistory) (player : TxnPlayer) : Option String :=
  if player.source_team_key ≠ "" then some (get_team_num player.source_team_key) else h.last_team

/-- The body of `build_player_history`'s transaction loop for one player
movement: insert a fresh record if absent, then dispatch on the action. -/
def process_movement (timestamp : Nat) (hmap : HistoryMap) (player : TxnPlayer) : HistoryMap :=
  let pid := player.player_id
  let h := (getHistory hmap pid).getD emptyHistory
  let h2 :=
    if player.action == "add" then
      let source := player.source_type
      if source == "freeagents" || source == "waivers" then
        { h with fa_pickups := h.fa_pickups ++ [(dest_team_of player, timestamp)],
                 last_team := dest_team_of player,
                 acquisition_chain :=
                   h.acquisition_chain ++ [faPickupEvent (dest_team_of player) source timestamp] }
      else h
    else if player.action == "drop" then
      { h with was_dropped := true,
               dropped_by := h.dropped_by ++ [drop_src_of h player],
               acquisition_chain :=
                 h.acquisition_chain ++ [dropEvent (drop_src_of h player) timestamp] }
    else if player.action == "trade" then
      { h with trades := h.trades ++ [(src_team_of player, dest_team_of player, timestamp)],
               last_team := dest_team_of player,
               acquisition_chain :=
                 h.acquisition_chain
                   ++ [tradeEvent (src_team_of player) (dest_team_of player) timestamp] }
    else h
  setHistory hmap pid h2

/-- `build_player_history`: seed every drafted player with a synthetic draft
event at timestamp 0, then fold the transaction log over the histories. -/
def build_player_history (draft_2025 : List (String × DraftInfo)) (transactions_2025 : List Txn) :
    HistoryMap :=
  let init : HistoryMap := draft_2025.map (fun e =>
    (e.1, ⟨some e.2.round, some e.2.team_num, false, [], [], [], some e.2.team_num,
           [draftEvent e.2.round e.2.team_num]⟩))
  transactions_2025.foldl
    (fun hmap txn => txn.players.foldl (process_movement txn.timestamp) hmap) init

/-! ### Acquisition tracer -/

structure AcqResult where
  method : String
  original_method : String
  draft_round : Option Nat
  was_dropped_and_reacquired : Bool
  original_team : Option String
  contract_origin : Option ChainEvent
deriving Repr, DecidableEq

/-- Loop state of `trace_acquisition`'s chain walk:
`(current_holder, was_dropped, contract_origin)`. -/
def trace_step (st : Option String × Bool × Option ChainEvent) (event : ChainEvent) :
    Option String × Bool × Option ChainEvent :=
  if event.etype == "draft" then (event.team, st.2.1, some event)
  else if event.etype == "fa_pickup" then (event.team, st.2.1, some event)
  else if event.etype == "drop" then (none, true, none)
  else if event.etype == "trade" then (event.to_team, st.2.1, st.2.2)
  else st

/-- `trace_acquisition`: walk a player's chain to find the current holder's
acquisition method and the contract origin in force. -/
def trace_acquisition (player_id : String) (current_team_num : String) (history : HistoryMap)
    (draft_2025 : List (String × DraftInfo)) : AcqResult :=
  match getHistory history player_id with
  | none => ⟨"unknown", "unknown", none, false, none, none⟩
  | some h =>
    match h.acquisition_chain with
    | [] => ⟨"unknown", "unknown", h.drafted_round, false, h.drafted_by, none⟩
    | e0 :: rest =>
      let chain := e0 :: rest
      let walked := chain.foldl trace_step (none, false, some e0)
      let was_dropped := walked.2.1
      let contract_origin := walked.2.2
      let method := (chain.reverse.findSome? (fun event =>
        if event.etype == "draft" && event.team == some current_team_num then some "drafted"
        else if event.etype == "fa_pickup" && event.team == some current_team_num then
          some "fa_pickup"
        else if event.etype == "trade" && event.to_team == some current_team_num then
          some "traded"
        else none)).getD "unknown"
      let om : String × Option Nat :=
        match contract_origin with
        | some co =>
          if co.etype == "draft" then ("drafted", co.round)
          else if co.etype == "fa_pickup" then ("fa_pickup", none)
          else ("unknown", none)
        | none => ("unknown", none)
      let was_dropped_and_reacquired :=
        was_dropped && (method == "fa_pickup" || method == "traded")
      ⟨method, om.1, om.2, was_dropped_and_reacquired, h.drafted_by, contract_origin⟩

/-! ### Keeper cost calculator -/

/-- The fields of a keeper record (row of the keeper DB joined with its player)
that `calculate_keeper_cost` reads. -/
structure KeeperRow where
  full_name : String
  yahoo_player_id : String
  fantasypros_ecr : Option Nat
  yahoo_team_key : String
  keeper_status : String
deriving Repr, DecidableEq

def lookupDraft (draft : List (String × DraftInfo)) (pid : String) : Option DraftInfo :=
  (draft.find? (fun e => e.1 == pid)).map (fun e => e.2)

def optTeamStr : Option String → String
  | some t => t
  | none => "None"

def optNatStr : Option Nat → String
  | some n => toString n
  | none => "None"

/-- The describe-acquisition block of `calculate_keeper_cost` (source lines
818-839); the unknown-method branch mutates `acq` in place in the source,
backfilling the draft round from the 2025 draft results. -/
def describe_acquisition (acq0 : AcqResult) (team_name team_num yahoo_player_id : String)
    (draft_2025 : List (String × DraftInfo)) : AcqResult × String :=
  if acq0.method == "drafted" then
    (acq0, "Drafted Rd " ++ optNatStr acq0.draft_round ++ " in 2025 by "
      ++ ((((TEAM_NAMES.find? (fun e => e.1 == optTeamStr acq0.original_team)).map
           (fun e => e.2)).getD team_num)))
  else if acq0.method == "fa_pickup" then
    (acq0, "FA pickup in 2025 by " ++ team_name)
  else if acq0.method == "traded" then
    (acq0,
      if acq0.original_method == "drafted" then
        "Traded to " ++ team_name ++ " (originally drafted Rd "
          ++ optNatStr acq0.draft_round ++ ")"
      else if acq0.original_method == "fa_pickup" then
        "Traded to " ++ team_name ++ " (originally FA pickup)"
      else "Traded to " ++ team_name)
  else
    match lookupDraft draft_2025 yahoo_player_id with
    | some d =>
      ({ acq0 with draft_round := some d.round, original_method := "drafted" },
       "Found in 2025 draft Rd " ++ toString d.round ++ " by "
         ++ ((((TEAM_NAMES.find? (fun e => e.1 == d.team_num)).map
              (fun e => e.2)).getD d.team_num)))
    | none => (acq0, "Unknown acquisition for " ++ team_name)

/-- Step 4 of `calculate_keeper_cost` (source lines 873-886): the
drop-plus-pickup protection rule. -/
def drop_protection (acq : AcqResult) (contract_is_fa : Bool) (ecr_rank : Option Nat)
    (ecr_round cost0 : Nat) : Nat × List String :=
  if acq.was_dropped_and_reacquired || contract_is_fa then
    match ecr_rank with
    | some r =>
      if r != 0 && r ≤ 60 then
        let original_draft := acq.draft_round
        let protected_cost :=
          match original_draft with
          | some d => if d != 0 then min ecr_round d else ecr_round
          | none => ecr_round
        if cost0 == 23 && protected_cost < 23 then
          (protected_cost,
           ["⚠️ DROP PROTECTION: ECR " ++ toString r ++ " (top 60), cannot keep at Rd 23 → Rd "
              ++ toString protected_cost])
        else (cost0, [])
      else (cost0, [])
    | none => (cost0, [])
  else (cost0, [])

/-- `calculate_keeper_cost`: returns `(cost, rationale)`; `cost = none` for
`keeping-na` records, which are excluded from cost computation. -/
def calculate_keeper_cost (keeper : KeeperRow) (ecr_lookup : String → Option Nat → Option Nat)
    (draft_2025 : List (String × DraftInfo)) (keepers_2025 : List String)
    (history : HistoryMap) : Option Nat × String :=
  let player_name := keeper.full_name
  let yahoo_player_id := keeper.yahoo_player_id
  let db_ecr := keeper.fantasypros_ecr
  let team_key := keeper.yahoo_team_key
  let team_num := get_team_num team_key
  let team_name := get_team_name team_key
  let keeper_status := keeper.keeper_status
  let ecr_rank := ecr_lookup player_name db_ecr
  let ecr_round : Nat := if pyTruthy ecr_rank then (ecr_to_round ecr_rank).getD 23 else 23
  if keeper_status == "keeping-na" then
    (none, "NA keeper — skipped (no regular cost)")
  else if keeper_status == "keeping-7th" then
    if ecr_rank == none then
      (some ecr_round, "7th keeper → ECR cost, but no ECR rank found → Rd 23")
    else
      (some ecr_round, "7th keeper → always ECR cost. ECR rank " ++ optNatStr ecr_rank
        ++ " → Rd " ++ toString ecr_round)
  else
    let acq0 := trace_acquisition yahoo_player_id team_num history draft_2025
    let is_2025_keeper := keepers_2025.contains yahoo_player_id
    let contract := acq0.contract_origin
    let contract_is_fa := match contract with
      | some c => c.etype == "fa_pickup"
      | none => false
    let is_2025_keeper_for_cost := if contract_is_fa then false else is_2025_keeper
    let described := describe_acquisition acq0 team_name team_num yahoo_player_id draft_2025
    let acq := described.1
    let part1 := described.2
    let part2 :=
      if is_2025_keeper then "was 2025 keeper (in both 2024 + 2025 drafts)"
      else "1st year keeper (new in 2025)"
    let costPart : Nat × String :=
      if is_2025_keeper_for_cost then
        if pyTruthy ecr_rank then
          (ecr_round, "2nd+ yr → ECR " ++ optNatStr ecr_rank ++ " → Rd " ++ toString ecr_round)
        else (23, "2nd+ yr → no ECR found → Rd 23")
      else
        if acq.original_method == "drafted" then
          -- draft-origin events always carry a round; `getD 0` stands in for the
          -- KeyError the source would raise on a malformed event
          (acq.draft_round.getD 0, "1st yr, drafted → Rd " ++ optNatStr acq.draft_round)
        else if acq.original_method == "fa_pickup" then
          (23, "1st yr, FA pickup → Rd 23")
        else
          match lookupDraft draft_2025 yahoo_player_id with
          | some d => (d.round, "1st yr, found in draft → Rd " ++ toString d.round)
          | none => (23, "1st yr, not in draft → Rd 23 (FA)")
    let cost0 := costPart.1
    let protectedPart := drop_protection acq contract_is_fa ecr_rank ecr_round cost0
    let parts := [part1, part2, costPart.2] ++ protectedPart.2
    (some protectedPart.1, String.intercalate " | " parts)

/-! ## Derived notions used in the statements -/

/-- The boards reachable from `b` by a sequence of successful `transfer_pick`
calls between managers (both ends drawn from `DRAFT_ORDER`). -/
inductive TransferReaches : DraftBoard → DraftBoard → Prop where
  | refl (b : DraftBoard) : TransferReaches b b
  | step {b b2 b3 : DraftBoard} (rd slot : Nat) (from_owner to_owner trade_desc : String) :
      from_owner ∈ DRAFT_ORDER → to_owner ∈ DRAFT_ORDER →
      DraftBoard.transfer_pick b rd slot from_owner to_owner trade_desc = .ok b2 →
      TransferReaches b2 b3 → TransferReaches b b3

/-- Do the computed board and the persisted snapshot disagree on the current
owner of cell `(rd, slot)`? -/
def owner_mismatch (b : DraftBoard) (site : Snapshot) (rd slot : Nat) : Bool :=
  ((b.lookupPick rd slot).map Pick.currentOwner)
    != ((site_pick_at site rd slot).map SnapshotPick.currentOwner)

/-- The slots present in round `rd`, in storage order. -/
def roundSlots (b : DraftBoard) (rd : Nat) : List Nat :=
  (b.picks.filter (fun e => e.1.1 == rd)).map (fun e => e.1.2)

/-- The slots in round `rd` whose pick matches `transfer_specific_pick`'s scan
condition, in storage order. -/
def roundMatches (b : DraftBoard) (rd : Nat) (original_owner from_owner : String) : List Nat :=
  (b.picks.filter (fun e =>
    e.1.1 == rd && e.2.originalOwner == original_owner
      && e.2.currentOwner == from_owner)).map (fun e => e.1.2)

/-- The contract-origin component of `trace_acquisition`'s chain walk. -/
def origin_step (o : Option ChainEvent) (event : ChainEvent) : Option ChainEvent :=
  if event.etype == "draft" then some event
  else if event.etype == "fa_pickup" then some event
  else if event.etype == "drop" then none
  else if event.etype == "trade" then o
  else o

/-- A chain is well formed when draft events occur only at its head; every
chain produced by `build_player_history` is well formed, since the draft event
is seeded and the transaction loop appends only pickups, drops and trades. -/
def wfChain (c : List ChainEvent) : Prop :=
  ∀ e ∈ c.tail, e.etype ≠ "draft"

instance (c : List ChainEvent) : Decidable (wfChain c) :=
  inferInstanceAs (Decidable (∀ e ∈ c.tail, e.etype ≠ "draft"))

/-! ## Generic list lemmas -/

theorem find?_map_pred {α : Type} (g : α → α) (p : α → Bool) (hg : ∀ a, p (g a) = p a)
    (l : List α) : (l.map g).find? p = (l.find? p).map g := by
  induction l with
  | nil => rfl
  | cons a as ih =>
    simp only [List.map_cons, List.find?, hg a]
    cases p a <;> simp [ih]

theorem lookupPick_find? {b : DraftBoard} {rd slot : Nat} {p : Pick}
    (hp : b.lookupPick rd slot = some p) :
    b.picks.find? (fun e => e.1 == (rd, slot)) = some ((rd, slot), p) := by
  unfold DraftBoard.lookupPick at hp
  cases hfe : b.picks.find? (fun e => e.1 == (rd, slot)) with
  | none => rw [hfe] at hp; simp at hp
  | some e0 =>
    rw [hfe] at hp
    simp only [Option.map_some', Option.some.injEq] at hp
    have hkey := List.find?_some hfe
    simp only [beq_iff_eq] at hkey
    have he : ((rd, slot), p) = e0 := by rw [← hkey, ← hp]
    rw [he]

theorem foldl_max_le (xs : List Nat) (a : Nat) : a ≤ xs.foldl Nat.max a := by
  induction xs generalizing a with
  | nil => simp
  | cons x xs ih => exact le_trans (Nat.le_max_left a x) (ih (Nat.max a x))

theorem foldl_max_mem (xs : List Nat) (a : Nat) :
    xs.foldl Nat.max a = a ∨ xs.foldl Nat.max a ∈ xs := by
  induction xs generalizing a with
  | nil => left; rfl
  | cons x xs ih =>
    rcases ih (Nat.max a x) with h | h
    · rw [List.foldl_cons, h]
      rcases Nat.le_total a x with h2 | h2
      · right
        have hm : Nat.max a x = x := Nat.max_eq_right h2
        rw [hm]; exact List.mem_cons_self x xs
      · left; exact Nat.max_eq_left h2
    · right; exact List.mem_cons_of_mem _ h

theorem foldl_max_ub (xs : List Nat) (a y : Nat) (hy : y ∈ xs) : y ≤ xs.foldl Nat.max a := by
  induction xs generalizing a with
  | nil => cases hy
  | cons x xs ih =>
    rcases List.mem_cons.mp hy with rfl | h
    · exact le_trans (Nat.le_max_right a y) (foldl_max_le xs _)
    · exact ih _ h

theorem foldl_min_le (xs : List Nat) (a : Nat) : xs.foldl Nat.min a ≤ a := by
  induction xs generalizing a with
  | nil => simp
  | cons x xs ih => exact le_trans (ih (Nat.min a x)) (Nat.min_le_left a x)

theorem foldl_min_mem (xs : List Nat) (a : Nat) :
    xs.foldl Nat.min a = a ∨ xs.foldl Nat.min a ∈ xs := by
  induction xs generalizing a with
  | nil => left; rfl
  | cons x xs ih =>
    rcases ih (Nat.min a x) with h | h
    · rw [List.foldl_cons, h]
      rcases Nat.le_total a x with h2 | h2
      · left; exact Nat.min_eq_left h2
      · right
        have hm : Nat.min a x = x := Nat.min_eq_right h2
        rw [hm]; exact List.mem_cons_self x xs
    · right; exact List.mem_cons_of_mem _ h

theorem foldl_min_lb (xs : List Nat) (a y : Nat) (hy : y ∈ xs) : xs.foldl Nat.min a ≤ y := by
  induction xs generalizing a with
  | nil => cases hy
  | cons x xs ih =>
    rcases List.mem_cons.mp hy with rfl | h
    · exact le_trans (foldl_min_le xs _) (Nat.min_le_right a y)
    · exact ih _ h

theorem list_max_spec {l : List Nat} {m : Nat} (h : DraftBoard.list_max l = some m) :
    m ∈ l ∧ ∀ y ∈ l, y ≤ m := by
  match l with
  | [] => simp [DraftBoard.list_max] at h
  | x :: xs =>
    simp only [DraftBoard.list_max, Option.some.injEq] at h
    subst h
    constructor
    · rcases foldl_max_mem xs x with h | h
      · rw [h]; exact List.mem_cons_self x xs
      · exact List.mem_cons_of_mem _ h
    · intro y hy
      rcases List.mem_cons.mp hy with rfl | h
      · exact foldl_max_le xs y
      · exact foldl_max_ub xs x y h

theorem list_min_spec {l : List Nat} {m : Nat} (h : DraftBoard.list_min l = some m) :
    m ∈ l ∧ ∀ y ∈ l, m ≤ y := by
  match l with
  | [] => simp [DraftBoard.list_min] at h
  | x :: xs =>
    simp only [DraftBoard.list_min, Option.some.injEq] at h
    subst h
    constructor
    · rcases foldl_min_mem xs x with h | h
      · rw [h]; exact List.mem_cons_self x xs
      · exact List.mem_cons_of_mem _ h
    · intro y hy
      rcases List.mem_cons.mp hy with rfl | h
      · exact foldl_min_le xs y
      · exact foldl_min_lb xs x y h

/-! ## C1: transfer guarded by current ownership -/

/-- C1: for every round, slot and managers `from`/`to` — when the pick at
`(r, s)` is currently owned by `from`, `transfer_pick` succeeds, sets its
`currentOwner` to `to` and appends `to` to its `path`; when it is not,
`transfer_pick` raises `OwnershipConflict` (naming the pick, its original
owner, its actual current owner and the expected `from`) and returns no
mutated ledger at all. -/
theorem claim_C1 (b : DraftBoard) (rd slot : Nat) (from_owner to_owner trade_desc : String)
    (p : Pick) (hp : b.lookupPick rd slot = some p) :
    (p.currentOwner = from_owner →
      ∃ b2, b.transfer_pick rd slot from_owner to_owner trade_desc = .ok b2 ∧
        b2.lookupPick rd slot = some ⟨p.originalOwner, to_owner, p.path ++ [to_owner]⟩) ∧
    (p.currentOwner ≠ from_owner →
      b.transfer_pick rd slot from_owner to_owner trade_desc =
        .error (.ownershipConflict trade_desc rd slot p.originalOwner p.currentOwner
          from_owner)) := by
  constructor
  · intro heq
    have hfind := lookupPick_find? hp
    refine ⟨⟨b.picks.map (fun e =>
        if e.1 == (rd, slot) then
          (e.1, { e.2 with currentOwner := to_owner, path := e.2.path ++ [to_owner] })
        else e)⟩, ?_, ?_⟩
    · simp only [DraftBoard.transfer_pick, hp]
      rw [if_neg (by simp [heq])]
    · unfold DraftBoard.lookupPick
      rw [find?_map_pred _ _ (fun a => by by_cases ha : (a.1 == (rd, slot)) = true <;> simp [ha]),
        hfind]
      simp
  · intro hne
    simp only [DraftBoard.transfer_pick, hp]
    rw [if_pos hne]

/-- Witness for C1: both branches evaluated on the initial board at round 1,
slot 1 (owned by Pudge). -/
theorem claim_C1_witness :
    (∃ b2, DraftBoard.init.transfer_pick 1 1 "Pudge" "Nick" "t" = .ok b2 ∧
      b2.lookupPick 1 1 = some ⟨"Pudge", "Nick", ["Pudge", "Nick"]⟩) ∧
    DraftBoard.init.transfer_pick 1 1 "Sean" "Nick" "t" =
      .error (.ownershipConflict "t" 1 1 "Pudge" "Pudge" "Sean") :=
  ⟨(claim_C1 DraftBoard.init 1 1 "Pudge" "Nick" "t" ⟨"Pudge", "Pudge", ["Pudge"]⟩
      (by decide)).1 (by decide),
   (claim_C1 DraftBoard.init 1 1 "Sean" "Nick" "t" ⟨"Pudge", "Pudge", ["Pudge"]⟩
      (by decide)).2 (by decide)⟩

/-! ## C3: worst pick is the max slot in odd rounds, the min slot in even -/

/-- C3: for every manager and round — with at least one held pick,
`get_worst_pick` returns the maximum held slot in an odd round and the minimum
held slot in an even round; with no held picks it fails with `NoPicksHeld`. -/
theorem claim_C3 (b : DraftBoard) (owner : String) (rd : Nat) :
    (b.get_owner_picks_in_round owner rd ≠ [] →
      ∃ m, b.get_worst_pick owner rd = .ok m ∧ m ∈ b.get_owner_picks_in_round owner rd ∧
        (rd % 2 = 1 → ∀ x ∈ b.get_owner_picks_in_round owner rd, x ≤ m) ∧
        (rd % 2 = 0 → ∀ x ∈ b.get_owner_picks_in_round owner rd, m ≤ x)) ∧
    (b.get_owner_picks_in_round owner rd = [] →
      b.get_worst_pick owner rd = .error (.noPicksHeld owner rd)) := by
  constructor
  · intro hne
    cases hs : b.get_owner_picks_in_round owner rd with
    | nil => exact absurd hs hne
    | cons s rest =>
      by_cases hodd : rd % 2 = 1
      · refine ⟨rest.foldl Nat.max s, ?_, ?_⟩
        · simp only [DraftBoard.get_worst_pick, hs, DraftBoard.list_max, DraftBoard.list_min]
          simp [hodd]
        · have hm := list_max_spec (l := s :: rest) (m := rest.foldl Nat.max s) rfl
          exact ⟨hm.1, fun _ => hm.2, fun hev => absurd hev (by omega)⟩
      · refine ⟨rest.foldl Nat.min s, ?_, ?_⟩
        · simp only [DraftBoard.get_worst_pick, hs, DraftBoard.list_max, DraftBoard.list_min]
          simp [hodd]
        · have hm := list_min_spec (l := s :: rest) (m := rest.foldl Nat.min s) rfl
          exact ⟨hm.1, fun h1 => absurd h1 hodd, fun _ => hm.2⟩
  · intro hempty
    simp [DraftBoard.get_worst_pick, hempty, DraftBoard.list_max, DraftBoard.list_min]

/-- Witness for C3: a manager holding slots 3 and 9 gets 9 in an odd round and
3 in an even round; a manager with no picks gets `NoPicksHeld`. -/
theorem claim_C3_witness :
    (∃ m, (DraftBoard.mk [((1, 3), ⟨"A", "M", ["A", "M"]⟩), ((1, 9), ⟨"B", "M", ["B", "M"]⟩),
        ((2, 3), ⟨"A", "M", ["A", "M"]⟩), ((2, 9), ⟨"B", "M", ["B", "M"]⟩)]).get_worst_pick
          "M" 1 = .ok m ∧
      m ∈ (DraftBoard.mk [((1, 3), ⟨"A", "M", ["A", "M"]⟩), ((1, 9), ⟨"B", "M", ["B", "M"]⟩),
        ((2, 3), ⟨"A", "M", ["A", "M"]⟩),
        ((2, 9), ⟨"B", "M", ["B", "M"]⟩)]).get_owner_picks_in_round "M" 1 ∧
      (1 % 2 = 1 →
        ∀ x ∈ (DraftBoard.mk [((1, 3), ⟨"A", "M", ["A", "M"]⟩), ((1, 9), ⟨"B", "M", ["B", "M"]⟩),
          ((2, 3), ⟨"A", "M", ["A", "M"]⟩),
          ((2, 9), ⟨"B", "M", ["B", "M"]⟩)]).get_owner_picks_in_round "M" 1, x ≤ m) ∧
      (1 % 2 = 0 →
        ∀ x ∈ (DraftBoard.mk [((1, 3), ⟨"A", "M", ["A", "M"]⟩), ((1, 9), ⟨"B", "M", ["B", "M"]⟩),
          ((2, 3), ⟨"A", "M", ["A", "M"]⟩),
          ((2, 9), ⟨"B", "M", ["B", "M"]⟩)]).get_owner_picks_in_round "M" 1, m ≤ x)) ∧
    (DraftBoard.mk [((1, 3), ⟨"A", "M", ["A", "M"]⟩),
      ((1, 9), ⟨"B", "M", ["B", "M"]⟩)]).get_worst_pick "Z" 1 =
        .error (.noPicksHeld "Z" 1) :=
  ⟨(claim_C3 (DraftBoard.mk [((1, 3), ⟨"A", "M", ["A", "M"]⟩), ((1, 9), ⟨"B", "M", ["B", "M"]⟩),
      ((2, 3), ⟨"A", "M", ["A", "M"]⟩), ((2, 9), ⟨"B", "M", ["B", "M"]⟩)]) "M" 1).1 (by decide),
   (claim_C3 (DraftBoard.mk [((1, 3), ⟨"A", "M", ["A", "M"]⟩),
      ((1, 9), ⟨"B", "M", ["B", "M"]⟩)]) "Z" 1).2 (by decide)⟩

/-! ## C10: original-owner lookup resolves to the smallest matching slot -/

theorem find?_eq_head?_filter (p : α → Bool) (l : List α) :
    l.find? p = (l.filter p).head? := by
  induction l with
  | nil => rfl
  | cons a as ih =>
    rw [List.find?_cons, List.filter_cons]
    cases hpa : p a with
    | true => rfl
    | false => simpa using ih

theorem find?_key_of_find?_comp {rd : Nat} {o fo : String} {e : (Nat × Nat) × Pick} :
    ∀ (l : List ((Nat × Nat) × Pick)),
      ((l.filter (fun x => x.1.1 == rd)).map (fun x => x.1.2)).Nodup →
      l.find? (fun x =>
        x.1.1 == rd && x.2.originalOwner == o && x.2.currentOwner == fo) = some e →
      l.find? (fun x => x.1 == e.1) = some e := by
  intro l
  induction l with
  | nil => intro _ h; simp at h
  | cons a as ih =>
    intro hnd hfind
    cases hca : (a.1.1 == rd && a.2.originalOwner == o && a.2.currentOwner == fo) with
    | true =>
      simp only [List.find?_cons, hca] at hfind
      injection hfind with hae
      subst hae
      exact List.find?_cons_of_pos _ (by simp)
    | false =>
      simp only [List.find?_cons, hca] at hfind
      have hcompE := List.find?_some hfind
      have hmemE := List.mem_of_find?_eq_some hfind
      simp only [Bool.and_eq_true, beq_iff_eq] at hcompE
      cases hka : (a.1 == e.1) with
      | true =>
        exfalso
        simp only [beq_iff_eq] at hka
        have haRd : (a.1.1 == rd) = true := by
          rw [hka]; simp [hcompE.1.1]
        simp only [List.filter_cons, haRd, if_true, List.map_cons, List.nodup_cons] at hnd
        apply hnd.1
        have heMem : e ∈ as.filter (fun x => x.1.1 == rd) :=
          List.mem_filter.mpr ⟨hmemE, by simp [hcompE.1.1]⟩
        have : e.1.2 ∈ (as.filter (fun x => x.1.1 == rd)).map (fun x => x.1.2) :=
          List.mem_map.mpr ⟨e, heMem, rfl⟩
        rw [hka]
        exact this
      | false =>
        simp only [List.find?_cons, hka]
        apply ih ?_ hfind
        cases haRd : (a.1.1 == rd) with
        | true =>
          simp only [List.filter_cons, haRd, if_true, List.map_cons, List.nodup_cons] at hnd
          exact hnd.2
        | false =>
          simpa only [List.filter_cons, haRd, if_false] using hnd

/-- C10: with distinct slots in the round, `transfer_specific_pick` with two or
more matching picks (same round, original owner and current owner)
deterministically transfers the matching pick with the smallest slot and
raises no ambiguity error; with no matching pick it raises `NoMatchingPick`
and returns no mutated ledger. -/
theorem claim_C10 (b : DraftBoard) (rd : Nat) (o fo to_owner d : String)
    (hsorted : (roundSlots b rd).Pairwise (· < ·)) :
    (2 ≤ (roundMatches b rd o fo).length →
      ∃ b2 m, b.transfer_specific_pick rd o fo to_owner d = .ok (b2, m) ∧
        m ∈ roundMatches b rd o fo ∧ ∀ x ∈ roundMatches b rd o fo, m ≤ x) ∧
    (roundMatches b rd o fo = [] →
      b.transfer_specific_pick rd o fo to_owner d = .error (.noMatchingPick d rd o fo)) := by
  have hnd : (roundSlots b rd).Nodup := hsorted.imp (fun h => Nat.ne_of_lt h)
  constructor
  · intro hlen
    have hmne : roundMatches b rd o fo ≠ [] := by
      intro hemp; rw [hemp] at hlen; simp at hlen
    cases hm : roundMatches b rd o fo with
    | nil => exact absurd hm hmne
    | cons m0 ms =>
      unfold roundMatches at hm
      cases hf : b.picks.filter (fun x =>
          x.1.1 == rd && x.2.originalOwner == o && x.2.currentOwner == fo) with
      | nil => rw [hf] at hm; simp at hm
      | cons fe fs =>
        rw [hf] at hm
        simp only [List.map_cons, List.cons.injEq] at hm
        have hfind : b.picks.find? (fun x =>
            x.1.1 == rd && x.2.originalOwner == o && x.2.currentOwner == fo) = some fe := by
          rw [find?_eq_head?_filter, hf]; rfl
        have hcomp := List.find?_some hfind
        simp only [Bool.and_eq_true, beq_iff_eq] at hcomp
        have hkey := find?_key_of_find?_comp b.picks hnd hfind
        have hmm : roundMatches b rd o fo = m0 :: ms := by
          unfold roundMatches
          rw [hf, List.map_cons, hm.1, hm.2]
        have hlook : b.lookupPick rd fe.1.2 = some fe.2 := by
          unfold DraftBoard.lookupPick
          have hfe1 : ((rd, fe.1.2) : Nat × Nat) = fe.1 := by
            rw [← hcomp.1.1]
          rw [hfe1, hkey]
          rfl
        refine ⟨⟨b.picks.map (fun e =>
            if e.1 == (rd, fe.1.2) then
              (e.1, { e.2 with currentOwner := to_owner, path := e.2.path ++ [to_owner] })
            else e)⟩, fe.1.2, ?_, ?_, ?_⟩
        · unfold DraftBoard.transfer_specific_pick
          rw [hfind]
          simp only [DraftBoard.transfer_pick, hlook]
          rw [if_neg (by simp [hcomp.2])]
          rfl
        · rw [hm.1]; exact List.mem_cons_self m0 ms
        · -- the matches are a sublist of the round's slots, hence pairwise `<`
          have hsub : (roundMatches b rd o fo).Sublist (roundSlots b rd) := by
            unfold roundMatches roundSlots
            exact (List.monotone_filter_right b.picks
              (fun a ha => by
                simp only [Bool.and_eq_true] at ha
                exact ha.1.1)).map _
          have hpw : (roundMatches b rd o fo).Pairwise (· < ·) := hsorted.sublist hsub
          rw [hmm] at hpw
          rw [hm.1]
          intro x hx
          rcases List.mem_cons.mp hx with rfl | hx2
          · exact Nat.le_refl x
          · exact Nat.le_of_lt ((List.pairwise_cons.mp hpw).1 x hx2)
  · intro hemp
    unfold roundMatches at hemp
    have hf : b.picks.filter (fun x =>
        x.1.1 == rd && x.2.originalOwner == o && x.2.currentOwner == fo) = [] := by
      cases hc : b.picks.filter (fun x =>
          x.1.1 == rd && x.2.originalOwner == o && x.2.currentOwner == fo) with
      | nil => rfl
      | cons y ys => rw [hc] at hemp; simp at hemp
    have hfind : b.picks.find? (fun x =>
        x.1.1 == rd && x.2.originalOwner == o && x.2.currentOwner == fo) = none := by
      rw [find?_eq_head?_filter, hf]; rfl
    unfold DraftBoard.transfer_specific_pick
    rw [hfind]

/-- Witness for C10: a round holding two picks with the same original owner
and current owner transfers slot 1 (the smaller), and a reference matching
nothing raises the error. -/
theorem claim_C10_witness :
    (∃ b2 m, (DraftBoard.mk [((1, 1), ⟨"O", "F", ["O"]⟩),
        ((1, 2), ⟨"O", "F", ["O"]⟩)]).transfer_specific_pick 1 "O" "F" "T" "d" =
          .ok (b2, m) ∧
      m ∈ roundMatches (DraftBoard.mk [((1, 1), ⟨"O", "F", ["O"]⟩),
        ((1, 2), ⟨"O", "F", ["O"]⟩)]) 1 "O" "F" ∧
      ∀ x ∈ roundMatches (DraftBoard.mk [((1, 1), ⟨"O", "F", ["O"]⟩),
        ((1, 2), ⟨"O", "F", ["O"]⟩)]) 1 "O" "F", m ≤ x) ∧
    (DraftBoard.mk [((1, 1), ⟨"O", "F", ["O"]⟩),
      ((1, 2), ⟨"O", "F", ["O"]⟩)]).transfer_specific_pick 1 "X" "F" "T" "d" =
        .error (.noMatchingPick "d" 1 "X" "F") :=
  ⟨(claim_C10 (DraftBoard.mk [((1, 1), ⟨"O", "F", ["O"]⟩), ((1, 2), ⟨"O", "F", ["O"]⟩)])
      1 "O" "F" "T" "d" (by decide)).1 (by decide),
   (claim_C10 (DraftBoard.mk [((1, 1), ⟨"O", "F", ["O"]⟩), ((1, 2), ⟨"O", "F", ["O"]⟩)])
      1 "X" "F" "T" "d" (by decide)).2 (by decide)⟩

/-! ## C2: transfers neither create nor destroy picks; round totals stay 12 -/

theorem transfer_ok_picks {b b2 : DraftBoard} {rd slot : Nat} {fo to_owner d : String}
    (h : b.transfer_pick rd slot fo to_owner d = .ok b2) :
    b2.picks = b.picks.map (fun e =>
      if e.1 == (rd, slot) then
        (e.1, { e.2 with currentOwner := to_owner, path := e.2.path ++ [to_owner] })
      else e) := by
  unfold DraftBoard.transfer_pick at h
  cases hl : b.lookupPick rd slot with
  | none => rw [hl] at h; cases h
  | some p =>
    rw [hl] at h
    simp only at h
    by_cases hne : p.currentOwner ≠ fo
    · rw [if_pos hne] at h; cases h
    · rw [if_neg hne] at h
      injection h with h2
      rw [← h2]

theorem transfer_ok_keys {b b2 : DraftBoard} {rd slot : Nat} {fo to_owner d : String}
    (h : b.transfer_pick rd slot fo to_owner d = .ok b2) :
    b2.picks.map Prod.fst = b.picks.map Prod.fst := by
  rw [transfer_ok_picks h, List.map_map]
  apply List.map_congr_left
  intro e _
  by_cases hk : e.1 = (rd, slot) <;> simp [hk, beq_iff_eq]

theorem transfer_ok_owners {b b2 : DraftBoard} {rd slot : Nat} {fo to_owner d : String}
    (hto : to_owner ∈ DRAFT_ORDER)
    (hinv : ∀ e ∈ b.picks, e.2.currentOwner ∈ DRAFT_ORDER)
    (h : b.transfer_pick rd slot fo to_owner d = .ok b2) :
    ∀ e ∈ b2.picks, e.2.currentOwner ∈ DRAFT_ORDER := by
  rw [transfer_ok_picks h]
  intro e he
  obtain ⟨a, ha, rfl⟩ := List.mem_map.mp he
  by_cases hk : (a.1 == (rd, slot)) = true
  · simp only [hk, if_true]
    exact hto
  · simp only [hk, if_false]
    exact hinv a ha

theorem reaches_inv {b b2 : DraftBoard} (h : TransferReaches b b2)
    (hkeys : b.picks.map Prod.fst = DraftBoard.init.picks.map Prod.fst)
    (hown : ∀ e ∈ b.picks, e.2.currentOwner ∈ DRAFT_ORDER) :
    b2.picks.map Prod.fst = DraftBoard.init.picks.map Prod.fst ∧
      ∀ e ∈ b2.picks, e.2.currentOwner ∈ DRAFT_ORDER := by
  induction h with
  | refl b => exact ⟨hkeys, hown⟩
  | step rd slot fo to_owner d hfo hto hok htail ih =>
    exact ih ((transfer_ok_keys hok).trans hkeys) (transfer_ok_owners hto hown hok)

theorem length_owned (b : DraftBoard) (owner : String) (rd : Nat) :
    (b.get_owner_picks_in_round owner rd).length =
      b.picks.countP (fun e => e.1.1 == rd && e.2.currentOwner == owner) := by
  unfold DraftBoard.get_owner_picks_in_round
  rw [(List.perm_insertionSort _ _).length_eq, List.length_map, ← List.countP_eq_length_filter]

theorem sum_map_add (l : List α) (f g : α → Nat) :
    (l.map (fun x => f x + g x)).sum = (l.map f).sum + (l.map g).sum := by
  induction l with
  | nil => simp
  | cons a l ih => simp [ih]; omega

theorem sum_map_indicator (x : String) :
    ∀ (ms : List String), ms.Nodup →
      (ms.map (fun m => if (x == m) = true then 1 else 0)).sum = if x ∈ ms then 1 else 0 := by
  intro ms
  induction ms with
  | nil => intro _; simp
  | cons m ms ih =>
    intro hnd
    rw [List.map_cons, List.sum_cons, ih (List.nodup_cons.mp hnd).2]
    by_cases hx : x = m
    · subst hx
      have hxm : x ∉ ms := (List.nodup_cons.mp hnd).1
      simp [hxm]
    · simp [hx, beq_iff_eq]

theorem sum_countP_owners (rd : Nat) :
    ∀ (l : List ((Nat × Nat) × Pick)) (ms : List String), ms.Nodup →
      (ms.map (fun m => l.countP (fun e => e.1.1 == rd && e.2.currentOwner == m))).sum
        = l.countP (fun e => e.1.1 == rd && ms.contains e.2.currentOwner) := by
  intro l
  induction l with
  | nil =>
    intro ms _
    simp only [List.countP_nil]
    exact List.sum_eq_zero (by simp)
  | cons a l ih =>
    intro ms hnd
    simp only [List.countP_cons]
    rw [sum_map_add, ih ms hnd]
    congr 1
    cases haRd : (a.1.1 == rd) with
    | false =>
      simp [haRd]
    | true =>
      simp only [haRd, Bool.true_and]
      rw [sum_map_indicator _ ms hnd]
      by_cases hmem : a.2.currentOwner ∈ ms
      · simp [hmem, List.elem_eq_true_of_mem hmem]
      · have : ms.contains a.2.currentOwner = false := by
          cases hc : ms.contains a.2.currentOwner with
          | false => rfl
          | true => exact absurd (List.elem_iff.mp hc) hmem
        simp [this, hmem]

set_option maxRecDepth 4000 in
theorem init_owner_mem : ∀ e ∈ DraftBoard.init.picks, e.2.currentOwner ∈ DRAFT_ORDER := by
  decide

set_option maxRecDepth 4000 in
theorem init_keys_countP (rd : Nat) (h1 : 1 ≤ rd) (h2 : rd ≤ ROUNDS) :
    DraftBoard.init.picks.countP (fun e => e.1.1 == rd) = 12 := by
  have h27 : rd ≤ 27 := h2
  interval_cases rd <;> decide

/-- C2: for every sequence of successful manager-to-manager transfers applied
to a freshly initialized ledger, the `(round, slot)` key list is exactly the
initial one (no picks created or destroyed), and for every round `r` the
total number of picks currently owned by the 12 managers is 12. -/
theorem claim_C2 (b : DraftBoard) (h : TransferReaches DraftBoard.init b) :
    b.picks.map Prod.fst = DraftBoard.init.picks.map Prod.fst ∧
    ∀ rd, 1 ≤ rd → rd ≤ ROUNDS →
      (DRAFT_ORDER.map (fun m => (b.get_owner_picks_in_round m rd).length)).sum = 12 := by
  have hinv := reaches_inv h rfl init_owner_mem
  refine ⟨hinv.1, ?_⟩
  intro rd h1 h2
  have step1 : (DRAFT_ORDER.map (fun m => (b.get_owner_picks_in_round m rd).length)).sum =
      (DRAFT_ORDER.map (fun m =>
        b.picks.countP (fun e => e.1.1 == rd && e.2.currentOwner == m))).sum := by
    apply congrArg
    exact List.map_congr_left (fun m _ => length_owned b m rd)
  rw [step1, sum_countP_owners rd b.picks DRAFT_ORDER (by decide)]
  have step2 : b.picks.countP (fun e => e.1.1 == rd && DRAFT_ORDER.contains e.2.currentOwner)
      = b.picks.countP (fun e => e.1.1 == rd) := by
    apply List.countP_congr
    intro e he
    have hmem := hinv.2 e he
    simp only [List.elem_eq_true_of_mem hmem]
    simp
  rw [step2]
  have step3 : b.picks.countP (fun e => e.1.1 == rd)
      = DraftBoard.init.picks.countP (fun e => e.1.1 == rd) := by
    have hmap : b.picks.countP (fun e => e.1.1 == rd)
        = (b.picks.map Prod.fst).countP (fun k => k.1 == rd) := by
      rw [List.countP_map]
      rfl
    have hmap2 : DraftBoard.init.picks.countP (fun e => e.1.1 == rd)
        = (DraftBoard.init.picks.map Prod.fst).countP (fun k => k.1 == rd) := by
      rw [List.countP_map]
      rfl
    rw [hmap, hmap2, hinv.1]
  rw [step3]
  exact init_keys_countP rd h1 h2

/-- Witness for C2: the round-1 ownership total on the freshly initialized
ledger itself. -/
theorem claim_C2_witness :
    (DRAFT_ORDER.map
      (fun m => (DraftBoard.init.get_owner_picks_in_round m 1).length)).sum = 12 :=
  (claim_C2 DraftBoard.init (TransferReaches.refl DraftBoard.init)).2 1 (by decide) (by decide)

/-! ## C4: contract-origin transitions of the acquisition tracer -/

theorem getHistory_singleton (pid : String) (h : PlayerHistory) :
    getHistory [(pid, h)] pid = some h := by
  unfold getHistory
  rw [List.find?_cons_of_pos _ (by simp)]
  rfl

theorem trace_fold_origin (chain : List ChainEvent) :
    ∀ (st : Option String × Bool × Option ChainEvent),
      (chain.foldl trace_step st).2.2 = chain.foldl origin_step st.2.2 := by
  induction chain with
  | nil => intro st; rfl
  | cons e c ih =>
    intro st
    rw [List.foldl_cons, List.foldl_cons, ih]
    congr 1
    show (trace_step st e).2.2 = origin_step st.2.2 e
    unfold trace_step origin_step
    cases e.etype == "draft" <;> cases e.etype == "fa_pickup" <;>
      cases e.etype == "drop" <;> cases e.etype == "trade" <;> rfl

theorem trace_fold_flag (chain : List ChainEvent) :
    ∀ (st : Option String × Bool × Option ChainEvent),
      (chain.foldl trace_step st).2.1
        = (st.2.1 || chain.any (fun e => e.etype == "drop")) := by
  induction chain with
  | nil => intro st; simp
  | cons e c ih =>
    intro st
    rw [List.foldl_cons, ih, List.any_cons]
    have hstep : (trace_step st e).2.1 = (st.2.1 || (e.etype == "drop")) := by
      unfold trace_step
      cases h1 : e.etype == "draft" with
      | true =>
        have : (e.etype == "drop") = false := by
          simp only [beq_iff_eq] at h1 ⊢
          rw [h1]; decide
        simp [this]
      | false =>
        cases h2 : e.etype == "fa_pickup" with
        | true =>
          have : (e.etype == "drop") = false := by
            simp only [beq_iff_eq] at h2 ⊢
            rw [h2]; decide
          simp [h1, this]
        | false =>
          cases h3 : e.etype == "drop" with
          | true => simp [h1, h2, h3]
          | false =>
            cases h4 : e.etype == "trade" with
            | true => simp [h1, h2, h3, h4]
            | false => simp [h1, h2, h3, h4]
    rw [hstep, Bool.or_assoc]

theorem trace_fields_of (pid t : String) (d : List (String × DraftInfo)) (hist : HistoryMap)
    (h : PlayerHistory) (hh : getHistory hist pid = some h)
    (e0 : ChainEvent) (rest : List ChainEvent) (hc : h.acquisition_chain = e0 :: rest) :
    (trace_acquisition pid t hist d).contract_origin
        = (e0 :: rest).foldl origin_step (some e0) ∧
    (trace_acquisition pid t hist d).original_method
        = (match (e0 :: rest).foldl origin_step (some e0) with
           | some co =>
             if co.etype == "draft" then "drafted"
             else if co.etype == "fa_pickup" then "fa_pickup" else "unknown"
           | none => "unknown") ∧
    (trace_acquisition pid t hist d).draft_round
        = (match (e0 :: rest).foldl origin_step (some e0) with
           | some co => if co.etype == "draft" then co.round else none
           | none => none) ∧
    ((trace_acquisition pid t hist d).was_dropped_and_reacquired = true →
        (e0 :: rest).any (fun e => e.etype == "drop") = true) := by
  unfold trace_acquisition
  rw [hh]
  simp only []
  rw [hc]
  simp only []
  rw [show ((e0 :: rest).foldl trace_step (none, false, some e0)).2.2
      = (e0 :: rest).foldl origin_step (some e0) from trace_fold_origin (e0 :: rest) _]
  refine ⟨rfl, ?_, ?_, ?_⟩
  · cases (e0 :: rest).foldl origin_step (some e0) with
    | none => rfl
    | some co =>
      simp only []
      cases co.etype == "draft" <;> cases co.etype == "fa_pickup" <;> rfl
  · cases (e0 :: rest).foldl origin_step (some e0) with
    | none => rfl
    | some co =>
      simp only []
      cases co.etype == "draft" <;> cases co.etype == "fa_pickup" <;> rfl
  · intro hflag
    simp only [Bool.and_eq_true] at hflag
    have hwd := hflag.1
    rw [trace_fold_flag (e0 :: rest) (none, false, some e0)] at hwd
    simpa using hwd

theorem trace_fields (pid t : String) (d : List (String × DraftInfo)) (h : PlayerHistory)
    (e0 : ChainEvent) (rest : List ChainEvent) (hc : h.acquisition_chain = e0 :: rest) :
    (trace_acquisition pid t [(pid, h)] d).contract_origin
        = (e0 :: rest).foldl origin_step (some e0) ∧
    (trace_acquisition pid t [(pid, h)] d).original_method
        = (match (e0 :: rest).foldl origin_step (some e0) with
           | some co =>
             if co.etype == "draft" then "drafted"
             else if co.etype == "fa_pickup" then "fa_pickup" else "unknown"
           | none => "unknown") := by
  have hf := trace_fields_of pid t d [(pid, h)] h (getHistory_singleton pid h) e0 rest hc
  exact ⟨hf.1, hf.2.1⟩

/-- C4: contract-origin transitions of the Acquisition Tracer's chain walk —
a draft or free-agent-pickup event establishes a new contract origin, a trade
event leaves the contract origin unchanged, a drop event clears it (and a
chain ending in that drop reports `original_method = "unknown"`), and a
subsequent fa_pickup by any team establishes a fresh origin. -/
theorem claim_C4 (pid t : String) (d : List (String × DraftInfo)) (h : PlayerHistory)
    (l : List ChainEvent) (e : ChainEvent) :
    ((e.etype = "draft" ∨ e.etype = "fa_pickup") →
      (trace_acquisition pid t [(pid, { h with acquisition_chain := l ++ [e] })] d).contract_origin
        = some e) ∧
    (e.etype = "trade" → l ≠ [] →
      (trace_acquisition pid t [(pid, { h with acquisition_chain := l ++ [e] })] d).contract_origin
        = (trace_acquisition pid t [(pid, { h with acquisition_chain := l })] d).contract_origin) ∧
    (e.etype = "drop" →
      (trace_acquisition pid t [(pid, { h with acquisition_chain := l ++ [e] })] d).contract_origin
        = none ∧
      (trace_acquisition pid t [(pid, { h with acquisition_chain := l ++ [e] })] d).original_method
        = "unknown") := by
  have ostep_draft : ∀ (o : Option ChainEvent), e.etype = "draft" → origin_step o e = some e :=
    fun o he => by simp [origin_step, he]
  have ostep_fa : ∀ (o : Option ChainEvent), e.etype = "fa_pickup" → origin_step o e = some e :=
    fun o he => by simp [origin_step, he]
  have ostep_drop : ∀ (o : Option ChainEvent), e.etype = "drop" → origin_step o e = none :=
    fun o he => by simp [origin_step, he]
  have ostep_trade : ∀ (o : Option ChainEvent), e.etype = "trade" → origin_step o e = o :=
    fun o he => by simp [origin_step, he]
  refine ⟨?_, ?_, ?_⟩
  · intro he
    have hstep : ∀ (o : Option ChainEvent), origin_step o e = some e := by
      intro o
      rcases he with he | he
      · exact ostep_draft o he
      · exact ostep_fa o he
    cases l with
    | nil =>
      have hf := (trace_fields pid t d { h with acquisition_chain := [e] } e [] rfl).1
      simp only [List.nil_append]
      rw [hf]
      simp only [List.foldl_cons, List.foldl_nil]
      exact hstep _
    | cons a l2 =>
      have hf := (trace_fields pid t d
        { h with acquisition_chain := (a :: l2) ++ [e] } a (l2 ++ [e]) rfl).1
      rw [hf]
      rw [show (a :: (l2 ++ [e])) = (a :: l2) ++ [e] from rfl, List.foldl_append]
      simp only [List.foldl_cons, List.foldl_nil]
      exact hstep _
  · intro he hl
    cases l with
    | nil => exact absurd rfl hl
    | cons a l2 =>
      have hf1 := (trace_fields pid t d
        { h with acquisition_chain := (a :: l2) ++ [e] } a (l2 ++ [e]) rfl).1
      have hf2 := (trace_fields pid t d
        { h with acquisition_chain := a :: l2 } a l2 rfl).1
      rw [hf1, hf2]
      rw [show (a :: (l2 ++ [e])) = (a :: l2) ++ [e] from rfl, List.foldl_append]
      simp only [List.foldl_cons, List.foldl_nil]
      exact ostep_trade _ he
  · intro he
    cases l with
    | nil =>
      have hf := trace_fields pid t d { h with acquisition_chain := [e] } e [] rfl
      have hnone : ([e].foldl origin_step (some e)) = none := by
        simp only [List.foldl_cons, List.foldl_nil]
        exact ostep_drop _ he
      constructor
      · simp only [List.nil_append]
        rw [hf.1, hnone]
      · simp only [List.nil_append]
        rw [hf.2, hnone]
    | cons a l2 =>
      have hf := trace_fields pid t d
        { h with acquisition_chain := (a :: l2) ++ [e] } a (l2 ++ [e]) rfl
      have hnone : ((a :: (l2 ++ [e])).foldl origin_step (some a)) = none := by
        rw [show (a :: (l2 ++ [e])) = (a :: l2) ++ [e] from rfl, List.foldl_append]
        exact ostep_drop _ he
      constructor
      · rw [hf.1, hnone]
      · rw [hf.2, hnone]

/-- Witness for C4: concrete chains — a pickup after a drop re-establishes the
origin, a trade preserves it, and a trailing drop yields an unknown origin. -/
theorem claim_C4_witness :
    ((trace_acquisition "p" "5"
        [("p", ⟨some 2, some "5", false, [], [], [], some "5",
          [draftEvent 2 "5", dropEvent (some "5") 10,
           faPickupEvent (some "6") "freeagents" 20]⟩)] []).contract_origin
      = some (faPickupEvent (some "6") "freeagents" 20)) ∧
    ((trace_acquisition "p" "5"
        [("p", ⟨some 2, some "5", false, [], [], [], some "5",
          [draftEvent 2 "5", tradeEvent (some "5") (some "6") 30]⟩)] []).contract_origin
      = (trace_acquisition "p" "5"
        [("p", ⟨some 2, some "5", false, [], [], [], some "5",
          [draftEvent 2 "5"]⟩)] []).contract_origin) ∧
    ((trace_acquisition "p" "5"
        [("p", ⟨some 2, some "5", false, [], [], [], some "5",
          [draftEvent 2 "5", dropEvent (some "5") 10]⟩)] []).contract_origin = none ∧
     (trace_acquisition "p" "5"
        [("p", ⟨some 2, some "5", false, [], [], [], some "5",
          [draftEvent 2 "5", dropEvent (some "5") 10]⟩)] []).original_method = "unknown") :=
  ⟨(claim_C4 "p" "5" [] ⟨some 2, some "5", false, [], [], [], some "5", []⟩
      [draftEvent 2 "5", dropEvent (some "5") 10]
      (faPickupEvent (some "6") "freeagents" 20)).1 (Or.inr rfl),
   (claim_C4 "p" "5" [] ⟨some 2, some "5", false, [], [], [], some "5", []⟩
      [draftEvent 2 "5"] (tradeEvent (some "5") (some "6") 30)).2.1 rfl (by decide),
   (claim_C4 "p" "5" [] ⟨some 2, some "5", false, [], [], [], some "5", []⟩
      [draftEvent 2 "5"] (dropEvent (some "5") 10)).2.2 rfl⟩

/-! ## C5: keeping-7th keepers are always priced at market value -/

theorem rat_ceil_eq_ceil (q : ℚ) : q.ceil = ⌈q⌉ := by
  unfold Rat.ceil
  split
  · next h =>
    have hq : ((q.num : ℚ)) = q := by
      conv_rhs => rw [← Rat.num_div_den q]
      rw [h]; simp
    conv_rhs => rw [← hq]
    rw [Int.ceil_intCast]
  · next h =>
    have hfl : ⌊q⌋ = q.num / q.den := Rat.floor_def
    symm
    rw [Int.ceil_eq_iff]
    constructor
    · push_cast
      rw [add_sub_cancel_right]
      have hle := Int.floor_le q
      rcases lt_or_eq_of_le hle with hlt | heq
      · rw [hfl] at hlt
        push_cast at hlt
        exact hlt
      · exfalso
        apply h
        rw [← heq, Rat.den_intCast]
    · have hlt := Int.lt_floor_add_one q
      rw [hfl] at hlt
      push_cast at hlt ⊢
      linarith

theorem rat_ceil_div12 (r : Nat) : ((r : ℚ) / 12).ceil.toNat = (r + 11) / 12 := by
  rw [rat_ceil_eq_ceil]
  have hceil : ⌈(r : ℚ) / 12⌉ = (((r + 11) / 12 : ℕ) : ℤ) := by
    rw [Int.ceil_eq_iff]
    rw [Int.cast_natCast]
    have hc1 : (12 : ℚ) * ((r + 11) / 12 : ℕ) ≤ (r : ℚ) + 11 := by
      have hnat : 12 * ((r + 11) / 12) ≤ r + 11 := by omega
      calc (12 : ℚ) * ((r + 11) / 12 : ℕ)
          = ((12 * ((r + 11) / 12) : ℕ) : ℚ) := by push_cast; ring
        _ ≤ ((r + 11 : ℕ) : ℚ) := by exact_mod_cast hnat
        _ = (r : ℚ) + 11 := by push_cast; ring
    have hc2 : (r : ℚ) ≤ 12 * ((r + 11) / 12 : ℕ) := by
      have hnat : r ≤ 12 * ((r + 11) / 12) := by omega
      calc (r : ℚ) = ((r : ℕ) : ℚ) := by norm_num
        _ ≤ ((12 * ((r + 11) / 12) : ℕ) : ℚ) := by exact_mod_cast hnat
        _ = 12 * ((r + 11) / 12 : ℕ) := by push_cast; ring
    constructor
    · rw [lt_div_iff₀ (by norm_num : (0:ℚ) < 12)]
      linarith
    · rw [div_le_iff₀ (by norm_num : (0:ℚ) < 12)]
      linarith
  rw [hceil]
  exact Int.toNat_natCast _

/-- `ecr_to_round` computes the spec's `rankToRound` formula. -/
theorem ecr_to_round_eq (r : Nat) :
    ecr_to_round (some r) = some (min ((r + 11) / 12) 23) := by
  unfold ecr_to_round
  simp only []
  rw [rat_ceil_div12]

/-- C5: for a `keeping-7th` keeper the computed cost is always
`rankToRound(rank) = min(ceil(rank / 12), 23)` — independent of the draft
results, keeper history and acquisition chains — and defaults to round 23
when no rank is found. -/
theorem claim_C5 (keeper : KeeperRow) (ecr_lookup : String → Option Nat → Option Nat)
    (d25 : List (String × DraftInfo)) (k25 : List String) (hist : HistoryMap)
    (hstatus : keeper.keeper_status = "keeping-7th") :
    (ecr_lookup keeper.full_name keeper.fantasypros_ecr = none →
      (calculate_keeper_cost keeper ecr_lookup d25 k25 hist).1 = some 23) ∧
    (∀ r, ecr_lookup keeper.full_name keeper.fantasypros_ecr = some r → 0 < r →
      (calculate_keeper_cost keeper ecr_lookup d25 k25 hist).1 = ecr_to_round (some r) ∧
      ecr_to_round (some r) = some (min ((r + 11) / 12) 23)) := by
  constructor
  · intro hnone
    unfold calculate_keeper_cost
    rw [hstatus]
    simp [hnone, pyTruthy]
  · intro r hr hpos
    refine ⟨?_, ecr_to_round_eq r⟩
    have hne : (r != 0) = true := by simpa using Nat.pos_iff_ne_zero.mp hpos
    unfold calculate_keeper_cost
    rw [hstatus]
    simp [hr, pyTruthy, hne, ecr_to_round_eq]

/-- Witness for C5: a rank-30 player with `keeping-7th` status costs round 3
(`ceil(30 / 12) = 3`), and a rank-less one costs round 23. -/
theorem claim_C5_witness :
    ((calculate_keeper_cost ⟨"B", "p2", none, "469.l.24701.t.5", "keeping-7th"⟩
        (fun _ db => db) [] [] []).1 = some 23) ∧
    ((calculate_keeper_cost ⟨"A", "p1", some 30, "469.l.24701.t.5", "keeping-7th"⟩
        (fun _ db => db) [] [] []).1 = ecr_to_round (some 30) ∧
      ecr_to_round (some 30) = some (min ((30 + 11) / 12) 23)) :=
  ⟨(claim_C5 ⟨"B", "p2", none, "469.l.24701.t.5", "keeping-7th"⟩
      (fun _ db => db) [] [] [] rfl).1 rfl,
   (claim_C5 ⟨"A", "p1", some 30, "469.l.24701.t.5", "keeping-7th"⟩
      (fun _ db => db) [] [] [] rfl).2 30 rfl (by decide)⟩

/-! ## C6: drop-protection keeps top-60 players off the waiver-tier price -/

theorem trace_nohist (pid t : String) (d : List (String × DraftInfo)) (hist : HistoryMap)
    (hh : getHistory hist pid = none) :
    trace_acquisition pid t hist d = ⟨"unknown", "unknown", none, false, none, none⟩ := by
  unfold trace_acquisition
  rw [hh]

theorem trace_empty (pid t : String) (d : List (String × DraftInfo)) (hist : HistoryMap)
    (h : PlayerHistory) (hh : getHistory hist pid = some h) (hc : h.acquisition_chain = []) :
    trace_acquisition pid t hist d
      = ⟨"unknown", "unknown", h.drafted_round, false, h.drafted_by, none⟩ := by
  unfold trace_acquisition
  rw [hh]
  simp only []
  rw [hc]

theorem origin_nondraft_inv (c : List ChainEvent) (hnd : ∀ e ∈ c, e.etype ≠ "draft") :
    ∀ o : Option ChainEvent,
      (o = none ∨ ∃ ev, o = some ev ∧ ev.etype ≠ "draft") →
      (c.foldl origin_step o = none ∨
        ∃ ev, c.foldl origin_step o = some ev ∧ ev.etype ≠ "draft") := by
  induction c with
  | nil => intro o ho; simpa using ho
  | cons e c ih =>
    intro o ho
    rw [List.foldl_cons]
    apply ih (fun x hx => hnd x (List.mem_cons_of_mem _ hx))
    have hne : e.etype ≠ "draft" := hnd e (List.mem_cons_self e c)
    have hd : (e.etype == "draft") = false := beq_eq_false_iff_ne.mpr hne
    cases h1 : e.etype == "fa_pickup" with
    | true =>
      right
      exact ⟨e, by simp [origin_step, hd, h1], hne⟩
    | false =>
      cases h2 : e.etype == "drop" with
      | true => left; simp [origin_step, hd, h1, h2]
      | false =>
        cases h3 : e.etype == "trade" with
        | true =>
          have : origin_step o e = o := by simp [origin_step, hd, h1, h2, h3]
          rw [this]; exact ho
        | false =>
          have : origin_step o e = o := by simp [origin_step, hd, h1, h2, h3]
          rw [this]; exact ho

theorem origin_after_drop :
    ∀ (c : List ChainEvent), (∀ e ∈ c, e.etype ≠ "draft") →
      c.any (fun e => e.etype == "drop") = true →
      ∀ o, (c.foldl origin_step o = none ∨
        ∃ ev, c.foldl origin_step o = some ev ∧ ev.etype ≠ "draft") := by
  intro c
  induction c with
  | nil => intro _ h; simp at h
  | cons e c ih =>
    intro hnd hany o
    rw [List.foldl_cons]
    cases hdrop : e.etype == "drop" with
    | true =>
      have heq : e.etype = "drop" := by simpa using hdrop
      have hstep : origin_step o e = none := by simp [origin_step, heq]
      rw [hstep]
      exact origin_nondraft_inv c (fun x hx => hnd x (List.mem_cons_of_mem _ hx)) none
        (Or.inl rfl)
    | false =>
      have hany2 : c.any (fun e => e.etype == "drop") = true := by
        simpa [List.any_cons, hdrop] using hany
      exact ih (fun x hx => hnd x (List.mem_cons_of_mem _ hx)) hany2 (origin_step o e)

theorem flag_draft_round_none (pid t : String) (d : List (String × DraftInfo))
    (hist : HistoryMap) (h : PlayerHistory) (hh : getHistory hist pid = some h)
    (hw : wfChain h.acquisition_chain)
    (hflag : (trace_acquisition pid t hist d).was_dropped_and_reacquired = true) :
    (trace_acquisition pid t hist d).draft_round = none := by
  cases hc : h.acquisition_chain with
  | nil =>
    rw [trace_empty pid t d hist h hh hc] at hflag
    simp at hflag
  | cons e0 rest =>
    have hf := trace_fields_of pid t d hist h hh e0 rest hc
    have hany := hf.2.2.2 hflag
    have hndrest : ∀ e ∈ rest, e.etype ≠ "draft" := by
      intro e he
      have : e ∈ h.acquisition_chain.tail := by rw [hc]; exact he
      exact hw e this
    rw [hf.2.2.1]
    have hfold : ((e0 :: rest).foldl origin_step (some e0)) = none ∨
        ∃ ev, (e0 :: rest).foldl origin_step (some e0) = some ev ∧ ev.etype ≠ "draft" := by
      rw [List.foldl_cons]
      cases hd0 : e0.etype == "draft" with
      | true =>
        have heq0 : e0.etype = "draft" := by simpa using hd0
        have hanyrest : rest.any (fun e => e.etype == "drop") = true := by
          have hnd0 : (e0.etype == "drop") = false := by simp [heq0]
          simpa [List.any_cons, hnd0] using hany
        exact origin_after_drop rest hndrest hanyrest _
      | false =>
        cases hanyrest : rest.any (fun e => e.etype == "drop") with
        | true => exact origin_after_drop rest hndrest hanyrest _
        | false =>
          have hd : (e0.etype == "drop") = true := by
            simpa [List.any_cons, hanyrest] using hany
          have heq0 : e0.etype = "drop" := by simpa using hd
          have hstep : origin_step (some e0) e0 = none := by simp [origin_step, heq0]
          rw [hstep]
          exact origin_nondraft_inv rest hndrest none (Or.inl rfl)
    rcases hfold with hf0 | ⟨ev, hev, hne⟩
    · rw [hf0]
    · rw [hev]
      simp only []
      rw [show (ev.etype == "draft") = false from beq_eq_false_iff_ne.mpr hne]
      simp

theorem describe_flag (acq0 : AcqResult) (team_name team_num pid : String)
    (d : List (String × DraftInfo)) :
    (describe_acquisition acq0 team_name team_num pid d).1.was_dropped_and_reacquired
      = acq0.was_dropped_and_reacquired := by
  unfold describe_acquisition
  cases h1 : acq0.method == "drafted" with
  | true => simp [h1]
  | false =>
    cases h2 : acq0.method == "fa_pickup" with
    | true => simp [h1, h2]
    | false =>
      cases h3 : acq0.method == "traded" with
      | true => simp [h1, h2, h3]
      | false =>
        simp only [h1, h2, h3, Bool.false_eq_true, if_false]
        cases lookupDraft d pid with
        | none => rfl
        | some dd => rfl

theorem drop_protection_spec (acq : AcqResult) (cfa : Bool) (r : Nat)
    (hflag : acq.was_dropped_and_reacquired = true) (hpos : 0 < r) (h60 : r ≤ 60)
    (cost0 : Nat) :
    (drop_protection acq cfa (some r) ((ecr_to_round (some r)).getD 23) cost0).1 ≠ 23 := by
  have hround : (ecr_to_round (some r)).getD 23 = min ((r + 11) / 12) 23 := by
    rw [ecr_to_round_eq]
    rfl
  have hlt : (ecr_to_round (some r)).getD 23 < 23 := by
    rw [hround]
    have : (r + 11) / 12 ≤ 5 := by omega
    omega
  unfold drop_protection
  rw [hflag]
  simp only [Bool.true_or, if_true]
  have hcond : (r != 0 && decide (r ≤ 60)) = true := by
    simp [Nat.pos_iff_ne_zero.mp hpos, h60]
  simp only [hcond, if_true]
  have hprot : (match acq.draft_round with
      | some dd => if dd != 0 then min ((ecr_to_round (some r)).getD 23) dd
                   else (ecr_to_round (some r)).getD 23
      | none => (ecr_to_round (some r)).getD 23) < 23 := by
    cases acq.draft_round with
    | none => exact hlt
    | some dd =>
      simp only []
      cases dd != 0 with
      | true => simp; omega
      | false => simpa using hlt
  cases hc : cost0 == 23 with
  | true =>
    simp only [hc, Bool.true_and]
    rw [if_pos (by simpa using hprot)]
    omega
  | false =>
    simp only [hc, Bool.false_and, if_false]
    simpa using hc

/-- C6: for a regular keeper whose trace has `was_dropped_and_reacquired` set
and whose rank is at most `5 × 12 = 60`, the computed cost never collapses to
the waiver-tier price 23; and whenever an original draft round is known it is
capped at `min(rankToRound(rank), originalDraftRound)` — with well-formed
chains (as `build_player_history` produces) a reacquired player's contract
origin is never a draft, so the cap holds vacuously. -/
theorem claim_C6 (keeper : KeeperRow) (ecr_lookup : String → Option Nat → Option Nat)
    (d25 : List (String × DraftInfo)) (k25 : List String) (hist : HistoryMap)
    (hna : keeper.keeper_status ≠ "keeping-na") (h7 : keeper.keeper_status ≠ "keeping-7th")
    (r : Nat) (hr : ecr_lookup keeper.full_name keeper.fantasypros_ecr = some r)
    (hpos : 0 < r) (h60 : r ≤ 60)
    (hwf : ∀ en ∈ hist, wfChain en.2.acquisition_chain)
    (hflag : (trace_acquisition keeper.yahoo_player_id (get_team_num keeper.yahoo_team_key)
        hist d25).was_dropped_and_reacquired = true) :
    (calculate_keeper_cost keeper ecr_lookup d25 k25 hist).1 ≠ some 23 ∧
    ∀ dr, (trace_acquisition keeper.yahoo_player_id (get_team_num keeper.yahoo_team_key)
        hist d25).draft_round = some dr →
      ∃ c, (calculate_keeper_cost keeper ecr_lookup d25 k25 hist).1 = some c ∧
        c ≤ min (min ((r + 11) / 12) 23) dr := by
  constructor
  · unfold calculate_keeper_cost
    simp only []
    rw [if_neg (by simp [hna]), if_neg (by simp [h7])]
    rw [hr]
    have hpt : pyTruthy (some r) = true := by
      simp [pyTruthy, Nat.pos_iff_ne_zero.mp hpos]
    rw [hpt]
    simp only [if_true]
    intro hcontra
    exact drop_protection_spec _ _ r (by rw [describe_flag]; exact hflag) hpos h60 _
      (Option.some.inj hcontra)
  · intro dr hdr
    exfalso
    cases hgh : getHistory hist keeper.yahoo_player_id with
    | none =>
      rw [trace_nohist keeper.yahoo_player_id (get_team_num keeper.yahoo_team_key) d25 hist
        hgh] at hflag
      simp at hflag
    | some h =>
      have hmem : ∃ en, en ∈ hist ∧ en.2 = h := by
        unfold getHistory at hgh
        cases hfe : hist.find? (fun e => e.1 == keeper.yahoo_player_id) with
        | none => rw [hfe] at hgh; simp at hgh
        | some en =>
          rw [hfe] at hgh
          simp at hgh
          exact ⟨en, List.mem_of_find?_eq_some hfe, hgh⟩
      obtain ⟨en, henmem, hen2⟩ := hmem
      have hw : wfChain h.acquisition_chain := by rw [← hen2]; exact hwf en henmem
      have hnone := flag_draft_round_none keeper.yahoo_player_id
        (get_team_num keeper.yahoo_team_key) d25 hist h hgh hw hflag
      rw [hnone] at hdr
      cases hdr

/-- Witness for C6: spec scenario C — a rank-20 player drafted in round 2,
dropped mid-season and re-added as a free agent; drop protection prices the
keeper at round 2, not 23. -/
theorem claim_C6_witness :
    (calculate_keeper_cost ⟨"P One", "p1", some 20, "469.l.24701.t.5", "keeping"⟩
        (fun _ db => db) [("p1", ⟨2, 14, "458.l.5221.t.5", "5"⟩)] []
        (build_player_history [("p1", ⟨2, 14, "458.l.5221.t.5", "5"⟩)]
          [⟨"drop", 100, "t1", [⟨"p1", "P One", "drop", "", "458.l.5221.t.5", "", ""⟩]⟩,
           ⟨"add", 200, "t2",
            [⟨"p1", "P One", "add", "freeagents", "", "team", "458.l.5221.t.5"⟩]⟩])).1
      ≠ some 23 :=
  (claim_C6 ⟨"P One", "p1", some 20, "469.l.24701.t.5", "keeping"⟩
      (fun _ db => db) [("p1", ⟨2, 14, "458.l.5221.t.5", "5"⟩)] []
      (build_player_history [("p1", ⟨2, 14, "458.l.5221.t.5", "5"⟩)]
        [⟨"drop", 100, "t1", [⟨"p1", "P One", "drop", "", "458.l.5221.t.5", "", ""⟩]⟩,
         ⟨"add", 200, "t2",
          [⟨"p1", "P One", "add", "freeagents", "", "team", "458.l.5221.t.5"⟩]⟩])
      (by decide) (by decide) 20 rfl (by decide) (by decide) (by decide) (by decide)).1

/-! ## C7: the transaction history builder -/

theorem find?_map_comm {α β : Type} (f : α → β) (p : β → Bool) (q : α → Bool)
    (h : ∀ a, p (f a) = q a) (l : List α) : (l.map f).find? p = (l.find? q).map f := by
  induction l with
  | nil => rfl
  | cons a as ih =>
    rw [List.map_cons, List.find?_cons, List.find?_cons, h a]
    cases q a <;> simp [ih]

theorem getHistory_mem {m : HistoryMap} {pid : String} {h : PlayerHistory}
    (hg : getHistory m pid = some h) : ∃ en ∈ m, en.2 = h := by
  unfold getHistory at hg
  cases hfe : m.find? (fun e => e.1 == pid) with
  | none => rw [hfe] at hg; simp at hg
  | some en =>
    rw [hfe] at hg
    simp only [Option.map_some', Option.some.injEq] at hg
    exact ⟨en, List.mem_of_find?_eq_some hfe, hg⟩

theorem find?_overwrite (pid : String) (h : PlayerHistory) :
    ∀ (m : HistoryMap), m.any (fun e => e.1 == pid) = true →
      ((m.map (fun e => if e.1 == pid then (pid, h) else e)).find?
          (fun e => e.1 == pid)).map (fun e => e.2) = some h := by
  intro m
  induction m with
  | nil => intro hany; simp at hany
  | cons a m ih =>
    intro hany
    rw [List.map_cons]
    cases ha : a.1 == pid with
    | true =>
      rw [if_pos rfl, List.find?_cons_of_pos _ (by simp)]
      rfl
    | false =>
      rw [if_neg (by simp), List.find?_cons_of_neg _ (by simp [ha])]
      apply ih
      simpa [List.any_cons, ha] using hany

theorem setHistory_get (m : HistoryMap) (pid : String) (h : PlayerHistory) :
    getHistory (setHistory m pid h) pid = some h := by
  unfold setHistory getHistory
  cases hany : m.any (fun e => e.1 == pid) with
  | true =>
    simp only [hany, if_true]
    exact find?_overwrite pid h m hany
  | false =>
    simp only [hany, Bool.false_eq_true, if_false]
    rw [List.find?_append]
    have hnone : m.find? (fun e => e.1 == pid) = none := by
      rw [List.find?_eq_none]
      intro x hx
      have := List.any_eq_false.mp hany x hx
      simpa using this
    rw [hnone]
    rw [List.find?_cons_of_pos _ (by simp)]
    rfl

theorem setHistory_mem (m : HistoryMap) (pid : String) (h : PlayerHistory) :
    ∀ en ∈ setHistory m pid h, en.2 = h ∨ en ∈ m := by
  unfold setHistory
  cases m.any (fun e => e.1 == pid) with
  | true =>
    simp only [if_true]
    intro en hen
    obtain ⟨a, ha, hga⟩ := List.mem_map.mp hen
    by_cases hk : (a.1 == pid) = true
    · rw [hk] at hga
      simp only [if_true] at hga
      left; rw [← hga]
    · rw [eq_false_of_ne_true hk] at hga
      simp only [Bool.false_eq_true, if_false] at hga
      right; rw [← hga]; exact ha
  | false =>
    simp only [Bool.false_eq_true, if_false]
    intro en hen
    rcases List.mem_append.mp hen with hl | hr
    · right; exact hl
    · left
      rcases List.mem_singleton.mp hr with rfl
      rfl

theorem process_chain_shape (ts : Nat) (hmap : HistoryMap) (player : TxnPlayer) :
    ∃ h2, process_movement ts hmap player = setHistory hmap player.player_id h2 ∧
      (h2.acquisition_chain =
          ((getHistory hmap player.player_id).getD emptyHistory).acquisition_chain ∨
       ∃ ev, ev.timestamp = ts ∧
         h2.acquisition_chain =
           ((getHistory hmap player.player_id).getD emptyHistory).acquisition_chain ++ [ev]) := by
  unfold process_movement
  simp only []
  by_cases h1 : (player.action == "add") = true
  · rw [if_pos h1]
    by_cases h2 : (player.source_type == "freeagents" || player.source_type == "waivers") = true
    · rw [if_pos h2]
      exact ⟨_, rfl, Or.inr ⟨_, rfl, rfl⟩⟩
    · rw [if_neg h2]
      exact ⟨_, rfl, Or.inl rfl⟩
  · rw [if_neg h1]
    by_cases h2 : (player.action == "drop") = true
    · rw [if_pos h2]
      exact ⟨_, rfl, Or.inr ⟨_, rfl, rfl⟩⟩
    · rw [if_neg h2]
      by_cases h3 : (player.action == "trade") = true
      · rw [if_pos h3]
        exact ⟨_, rfl, Or.inr ⟨_, rfl, rfl⟩⟩
      · rw [if_neg h3]
        exact ⟨_, rfl, Or.inl rfl⟩

theorem process_inv (ts : Nat) (hmap : HistoryMap) (player : TxnPlayer)
    (hinv : ∀ en ∈ hmap,
      (en.2.acquisition_chain.map ChainEvent.timestamp).Pairwise (· ≤ ·) ∧
      ∀ u ∈ en.2.acquisition_chain.map ChainEvent.timestamp, u ≤ ts) :
    ∀ en ∈ process_movement ts hmap player,
      (en.2.acquisition_chain.map ChainEvent.timestamp).Pairwise (· ≤ ·) ∧
      ∀ u ∈ en.2.acquisition_chain.map ChainEvent.timestamp, u ≤ ts := by
  obtain ⟨h2, hproc, hshape⟩ := process_chain_shape ts hmap player
  rw [hproc]
  have hold : (((getHistory hmap player.player_id).getD
        emptyHistory).acquisition_chain.map ChainEvent.timestamp).Pairwise (· ≤ ·) ∧
      ∀ u ∈ ((getHistory hmap player.player_id).getD
        emptyHistory).acquisition_chain.map ChainEvent.timestamp, u ≤ ts := by
    cases hg : getHistory hmap player.player_id with
    | none => simp [emptyHistory]
    | some h0 =>
      obtain ⟨en0, hen0, hen2⟩ := getHistory_mem hg
      rw [Option.getD_some, ← hen2]
      exact hinv en0 hen0
  have hh2 : (h2.acquisition_chain.map ChainEvent.timestamp).Pairwise (· ≤ ·) ∧
      ∀ u ∈ h2.acquisition_chain.map ChainEvent.timestamp, u ≤ ts := by
    rcases hshape with heq | ⟨ev, hev, heq⟩
    · rw [heq]; exact hold
    · rw [heq, List.map_append]
      constructor
      · rw [List.pairwise_append]
        refine ⟨hold.1, by simp, ?_⟩
        intro a ha b hb
        rcases List.mem_map.mp hb with ⟨ev2, hev2, rfl⟩
        rcases List.mem_singleton.mp hev2 with rfl
        rw [hev]
        exact hold.2 a ha
      · intro u hu
        rcases List.mem_append.mp hu with hu1 | hu2
        · exact hold.2 u hu1
        · rcases List.mem_map.mp hu2 with ⟨ev2, hev2, rfl⟩
          rcases List.mem_singleton.mp hev2 with rfl
          rw [hev]
  intro en hen
  rcases setHistory_mem hmap player.player_id h2 en hen with he | hm
  · rw [he]; exact hh2
  · exact hinv en hm

theorem players_fold_inv (ts : Nat) (players : List TxnPlayer) :
    ∀ (hmap : HistoryMap),
      (∀ en ∈ hmap,
        (en.2.acquisition_chain.map ChainEvent.timestamp).Pairwise (· ≤ ·) ∧
        ∀ u ∈ en.2.acquisition_chain.map ChainEvent.timestamp, u ≤ ts) →
      ∀ en ∈ players.foldl (process_movement ts) hmap,
        (en.2.acquisition_chain.map ChainEvent.timestamp).Pairwise (· ≤ ·) ∧
        ∀ u ∈ en.2.acquisition_chain.map ChainEvent.timestamp, u ≤ ts := by
  induction players with
  | nil => intro hmap hinv; exact hinv
  | cons p ps ih =>
    intro hmap hinv
    rw [List.foldl_cons]
    exact ih (process_movement ts hmap p) (process_inv ts hmap p hinv)

theorem txns_fold_inv :
    ∀ (txns : List Txn) (hmap : HistoryMap),
      txns.Pairwise (fun a b => a.timestamp ≤ b.timestamp) →
      (∀ en ∈ hmap,
        (en.2.acquisition_chain.map ChainEvent.timestamp).Pairwise (· ≤ ·) ∧
        ∀ u ∈ en.2.acquisition_chain.map ChainEvent.timestamp, ∀ tx ∈ txns, u ≤ tx.timestamp) →
      ∀ en ∈ txns.foldl
          (fun hm txn => txn.players.foldl (process_movement txn.timestamp) hm) hmap,
        (en.2.acquisition_chain.map ChainEvent.timestamp).Pairwise (· ≤ ·) := by
  intro txns
  induction txns with
  | nil =>
    intro hmap _ hinv en hen
    exact (hinv en hen).1
  | cons t rest ih =>
    intro hmap hsort hinv
    rw [List.foldl_cons]
    have hps := List.pairwise_cons.mp hsort
    apply ih _ hps.2
    have hstep := players_fold_inv t.timestamp t.players hmap (fun en hen =>
      ⟨(hinv en hen).1, fun u hu => (hinv en hen).2 u hu t (List.mem_cons_self t rest)⟩)
    intro en hen
    refine ⟨(hstep en hen).1, ?_⟩
    intro u hu tx htx
    exact le_trans ((hstep en hen).2 u hu) (hps.1 tx htx)

/-- C7: the Transaction History Builder — every drafted player's chain is
seeded with a single synthetic draft event at timestamp 0; processing one
player movement appends an `fa_pickup` event for an add from free agency or
waivers, a `drop` event for a drop and a `trade` event for a trade; and with
the transaction log sorted by ascending timestamp every resulting chain lists
its events in chronological (non-decreasing timestamp) order. -/
theorem claim_C7 (draft : List (String × DraftInfo)) (txns : List Txn) :
    (∀ pid info, lookupDraft draft pid = some info →
      ∃ h0, getHistory (build_player_history draft []) pid = some h0 ∧
        h0.acquisition_chain = [draftEvent info.round info.team_num] ∧
        (draftEvent info.round info.team_num).timestamp = 0) ∧
    (∀ ts hmap (player : TxnPlayer), player.action = "add" →
      (player.source_type = "freeagents" ∨ player.source_type = "waivers") →
      ∃ h2, getHistory (process_movement ts hmap player) player.player_id = some h2 ∧
        h2.acquisition_chain =
          ((getHistory hmap player.player_id).getD emptyHistory).acquisition_chain
            ++ [faPickupEvent (dest_team_of player) player.source_type ts]) ∧
    (∀ ts hmap (player : TxnPlayer), player.action = "drop" →
      ∃ h2, getHistory (process_movement ts hmap player) player.player_id = some h2 ∧
        h2.acquisition_chain =
          ((getHistory hmap player.player_id).getD emptyHistory).acquisition_chain
            ++ [dropEvent
                (drop_src_of ((getHistory hmap player.player_id).getD emptyHistory) player)
                ts]) ∧
    (∀ ts hmap (player : TxnPlayer), player.action = "trade" →
      ∃ h2, getHistory (process_movement ts hmap player) player.player_id = some h2 ∧
        h2.acquisition_chain =
          ((getHistory hmap player.player_id).getD emptyHistory).acquisition_chain
            ++ [tradeEvent (src_team_of player) (dest_team_of player) ts]) ∧
    (txns.Pairwise (fun a b => a.timestamp ≤ b.timestamp) →
      ∀ pid h, getHistory (build_player_history draft txns) pid = some h →
        (h.acquisition_chain.map ChainEvent.timestamp).Pairwise (· ≤ ·)) := by
  refine ⟨?_, ?_, ?_, ?_, ?_⟩
  · intro pid info hl
    unfold build_player_history
    rw [List.foldl_nil]
    unfold lookupDraft at hl
    cases hfe : draft.find? (fun e => e.1 == pid) with
    | none => rw [hfe] at hl; simp at hl
    | some e0 =>
      rw [hfe] at hl
      simp only [Option.map_some', Option.some.injEq] at hl
      unfold getHistory
      rw [find?_map_comm _ _ (fun e => e.1 == pid) (fun a => rfl) draft, hfe]
      exact ⟨_, rfl, by simp only []; rw [hl], rfl⟩
  · intro ts hmap player ha hs
    unfold process_movement
    simp only []
    rw [if_pos (by simp [ha])]
    rw [if_pos (by rcases hs with hs | hs <;> simp [hs])]
    exact ⟨_, setHistory_get _ _ _, rfl⟩
  · intro ts hmap player ha
    unfold process_movement
    simp only []
    rw [if_neg (by simp [ha]), if_pos (by simp [ha])]
    exact ⟨_, setHistory_get _ _ _, rfl⟩
  · intro ts hmap player ha
    unfold process_movement
    simp only []
    rw [if_neg (by simp [ha]), if_neg (by simp [ha]), if_pos (by simp [ha])]
    exact ⟨_, setHistory_get _ _ _, rfl⟩
  · intro hsort pid h hg
    obtain ⟨en, hen, hen2⟩ := getHistory_mem hg
    rw [← hen2]
    apply txns_fold_inv txns _ hsort ?_ en hen
    intro en0 hen0
    obtain ⟨a, _, hga⟩ := List.mem_map.mp hen0
    constructor
    · rw [← hga]
      simp [draftEvent]
    · intro u hu
      rw [← hga] at hu
      simp [draftEvent] at hu
      simp [hu]

/-- Witness for C7: a drafted player's seeded chain, the three append
behaviours on a concrete movement, and chronological order of the built
chain from a sorted two-transaction log. -/
theorem claim_C7_witness :
    (∃ h0, getHistory (build_player_history [("p1", ⟨2, 14, "458.l.5221.t.5", "5"⟩)] [])
        "p1" = some h0 ∧
      h0.acquisition_chain = [draftEvent 2 "5"] ∧ (draftEvent 2 "5").timestamp = 0) ∧
    (∃ h2, getHistory (process_movement 200 []
        ⟨"p1", "P One", "add", "freeagents", "", "team", "458.l.5221.t.5"⟩) "p1" = some h2 ∧
      h2.acquisition_chain = ((getHistory ([] : HistoryMap) "p1").getD
          emptyHistory).acquisition_chain
        ++ [faPickupEvent
            (dest_team_of ⟨"p1", "P One", "add", "freeagents", "", "team", "458.l.5221.t.5"⟩)
            "freeagents" 200]) ∧
    ((⟨some 2, some "5", true, [some "5"], [(some "5", 200)], [], some "5",
        [draftEvent 2 "5", dropEvent (some "5") 100,
         faPickupEvent (some "5") "freeagents" 200]⟩ :
          PlayerHistory).acquisition_chain.map ChainEvent.timestamp).Pairwise (· ≤ ·) := by
  refine ⟨?_, ?_, ?_⟩
  · exact (claim_C7 [("p1", ⟨2, 14, "458.l.5221.t.5", "5"⟩)] []).1 "p1"
      ⟨2, 14, "458.l.5221.t.5", "5"⟩ (by decide)
  · exact (claim_C7 [] []).2.1 200 []
      ⟨"p1", "P One", "add", "freeagents", "", "team", "458.l.5221.t.5"⟩ rfl (Or.inl rfl)
  · exact (claim_C7 [("p1", ⟨2, 14, "458.l.5221.t.5", "5"⟩)]
      [⟨"drop", 100, "t1", [⟨"p1", "P One", "drop", "", "458.l.5221.t.5", "", ""⟩]⟩,
       ⟨"add", 200, "t2",
        [⟨"p1", "P One", "add", "freeagents", "", "team", "458.l.5221.t.5"⟩]⟩]).2.2.2.2
      (by decide) "p1" _ (by decide)

/-! ## C9: snapshot export / reconstruction round trip -/

theorem collectM_forall₂ {α β : Type} (f : α → Option β) :
    ∀ (l : List α) (r : List β), collectM l f = some r →
      List.Forall₂ (fun a b => f a = some b) l r := by
  intro l
  induction l with
  | nil =>
    intro r h
    unfold collectM at h
    injection h with h2
    rw [← h2]
    exact List.Forall₂.nil
  | cons a as ih =>
    intro r h
    unfold collectM at h
    cases hfa : f a with
    | none => rw [hfa] at h; cases h
    | some b =>
      rw [hfa] at h
      cases hrec : collectM as f with
      | none => rw [hrec] at h; cases h
      | some bs =>
        rw [hrec] at h
        injection h with h2
        rw [← h2]
        exact List.Forall₂.cons hfa (ih bs hrec)

theorem forall₂_some_of_mem {α β : Type} {f : α → Option β} :
    ∀ {l : List α} {r : List β},
      List.Forall₂ (fun a b => f a = some b) l r → ∀ a ∈ l, ∃ b, f a = some b := by
  intro l r h
  induction h with
  | nil => intro a ha; cases ha
  | cons hab _ ih =>
    intro x hx
    rcases List.mem_cons.mp hx with rfl | hx2
    · exact ⟨_, hab⟩
    · exact ih x hx2

theorem forall₂_eq_map {α β : Type} (d : β) {f : α → Option β} :
    ∀ {l : List α} {r : List β},
      List.Forall₂ (fun a b => f a = some b) l r → r = l.map (fun a => (f a).getD d) := by
  intro l r h
  induction h with
  | nil => rfl
  | cons hab _ ih =>
    rw [List.map_cons, ← ih]
    congr 1
    rw [hab, Option.getD_some]

theorem flatMap_congr_mem {α β : Type} {l : List α} {f g : α → List β}
    (h : ∀ a ∈ l, f a = g a) : l.flatMap f = l.flatMap g := by
  induction l with
  | nil => rfl
  | cons a as ih =>
    simp only [List.flatMap_cons]
    rw [h a (List.mem_cons_self a as), ih (fun x hx => h x (List.mem_cons_of_mem a hx))]

theorem find?_cells_map {γ : Type} (f : Nat × Nat → (Nat × Nat) × γ)
    (hf : ∀ c, (f c).1 = c) :
    ∀ (cells : List (Nat × Nat)), cells.Nodup → ∀ c0 ∈ cells,
      ((cells.map f).find? (fun e => e.1 == c0)) = some (f c0) := by
  intro cells
  induction cells with
  | nil => intro _ c0 hc; cases hc
  | cons c cs ih =>
    intro hnd c0 hc
    rw [List.map_cons]
    by_cases hcc : c = c0
    · subst hcc
      exact List.find?_cons_of_pos _ (by simp [hf c])
    · rw [List.find?_cons_of_neg _ (by simp [hf c, hcc])]
      rcases List.mem_cons.mp hc with rfl | hc2
      · exact absurd rfl hcc
      · exact ih (List.nodup_cons.mp hnd).2 c0 hc2

set_option maxRecDepth 8000 in
theorem gridCells_nodup : gridCells.Nodup := by decide

theorem mem_gridCells {rd slot : Nat} (h1 : 1 ≤ rd) (h2 : rd ≤ ROUNDS) (h3 : 1 ≤ slot)
    (h4 : slot ≤ 12) : (rd, slot) ∈ gridCells := by
  have h2b : rd ≤ 27 := h2
  unfold gridCells
  rw [List.mem_flatMap]
  refine ⟨rd - 1, List.mem_range.mpr (by omega), ?_⟩
  rw [List.mem_map]
  refine ⟨slot - 1, List.mem_range.mpr (by omega), ?_⟩
  have : rd - 1 + 1 = rd := by omega
  rw [this]
  have : slot - 1 + 1 = slot := by omega
  rw [this]

theorem to_json_eq {b : DraftBoard} {snap : Snapshot} (h : b.to_json = some snap) :
    (∀ rd slot, 1 ≤ rd → rd ≤ ROUNDS → 1 ≤ slot → slot ≤ 12 →
      ∃ p, b.lookupPick rd slot = some p) ∧
    snap.picks = (List.range ROUNDS).map (fun rI =>
      (rI + 1, (List.range 12).map (fun sI =>
        ((b.lookupPick (rI + 1) (sI + 1)).map (fun pick =>
          SnapshotPick.mk (sI + 1) pick.originalOwner pick.currentOwner
            (pick.originalOwner != pick.currentOwner) pick.path)).getD
          (SnapshotPick.mk 0 "" "" false [])))) := by
  unfold DraftBoard.to_json at h
  cases hrows : collectM (List.range ROUNDS) (fun rIdx =>
      (collectM (List.range 12) (fun sIdx =>
        (b.lookupPick (rIdx + 1) (sIdx + 1)).map (fun pick =>
          SnapshotPick.mk (sIdx + 1) pick.originalOwner pick.currentOwner
            (pick.originalOwner != pick.currentOwner) pick.path))).map
        (fun row => (rIdx + 1, row))) with
  | none => rw [hrows] at h; cases h
  | some rows =>
    rw [hrows] at h
    injection h with h2
    have hfa := collectM_forall₂ _ _ _ hrows
    have hrowAt : ∀ rI ∈ List.range ROUNDS,
        ∃ row, collectM (List.range 12) (fun sIdx =>
          (b.lookupPick (rI + 1) (sIdx + 1)).map (fun pick =>
            SnapshotPick.mk (sIdx + 1) pick.originalOwner pick.currentOwner
              (pick.originalOwner != pick.currentOwner) pick.path)) = some row := by
      intro rI hrI
      obtain ⟨X, hX⟩ := forall₂_some_of_mem hfa rI hrI
      cases hc : collectM (List.range 12) (fun sIdx =>
          (b.lookupPick (rI + 1) (sIdx + 1)).map (fun pick =>
            SnapshotPick.mk (sIdx + 1) pick.originalOwner pick.currentOwner
              (pick.originalOwner != pick.currentOwner) pick.path)) with
      | none => rw [hc] at hX; cases hX
      | some row => exact ⟨row, rfl⟩
    constructor
    · intro rd slot hr1 hr2 hs1 hs2
      have hr2b : rd ≤ 27 := hr2
      obtain ⟨row, hrow⟩ := hrowAt (rd - 1) (List.mem_range.mpr (by omega))
      have hinner := forall₂_some_of_mem (collectM_forall₂ _ _ _ hrow) (slot - 1)
        (List.mem_range.mpr (by omega))
      obtain ⟨sp, hsp⟩ := hinner
      have hrd : rd - 1 + 1 = rd := by omega
      have hsl : slot - 1 + 1 = slot := by omega
      rw [hrd, hsl] at hsp
      cases hlp : b.lookupPick rd slot with
      | none => rw [hlp] at hsp; cases hsp
      | some p => exact ⟨p, rfl⟩
    · rw [← h2]
      simp only []
      rw [forall₂_eq_map (0, ([] : List SnapshotPick)) hfa]
      apply List.map_congr_left
      intro rI hrI
      obtain ⟨row, hrow⟩ := hrowAt rI hrI
      rw [hrow]
      simp only [Option.map_some', Option.getD_some]
      congr 1
      exact forall₂_eq_map (SnapshotPick.mk 0 "" "" false [])
        (collectM_forall₂ _ _ _ hrow)

theorem board_of_snapshot_eq {b : DraftBoard} {snap : Snapshot} (h : b.to_json = some snap) :
    (board_of_snapshot snap).picks = gridCells.map (fun c =>
      (c, Pick.mk ((b.lookupPick c.1 c.2).getD ⟨"", "", []⟩).originalOwner
          ((b.lookupPick c.1 c.2).getD ⟨"", "", []⟩).currentOwner
          ((b.lookupPick c.1 c.2).getD ⟨"", "", []⟩).path)) := by
  obtain ⟨hcomplete, hpicks⟩ := to_json_eq h
  unfold board_of_snapshot gridCells
  rw [hpicks]
  rw [List.flatMap_map, List.map_flatMap]
  apply flatMap_congr_mem
  intro rI hrI
  simp only [List.map_map]
  apply List.map_congr_left
  intro sI hsI
  have hrIb := List.mem_range.mp hrI
  have hsIb := List.mem_range.mp hsI
  obtain ⟨p, hp⟩ := hcomplete (rI + 1) (sI + 1) (by omega) hrIb (by omega) hsIb
  simp only [Function.comp, hp, Option.map_some', Option.getD_some]

/-- C9: exporting any ledger whose export succeeds to the snapshot format and
reconstructing a ledger from that snapshot reproduces, at every in-range
`(round, slot)` cell, a pick with the identical `currentOwner` and the
identical `path`. -/
theorem claim_C9 (b : DraftBoard) (snap : Snapshot) (h : b.to_json = some snap)
    (rd slot : Nat) (h1 : 1 ≤ rd) (h2 : rd ≤ ROUNDS) (h3 : 1 ≤ slot) (h4 : slot ≤ 12) :
    ∃ p p2 : Pick, b.lookupPick rd slot = some p ∧
      (board_of_snapshot snap).lookupPick rd slot = some p2 ∧
      p2.currentOwner = p.currentOwner ∧ p2.path = p.path := by
  obtain ⟨p, hp⟩ := (to_json_eq h).1 rd slot h1 h2 h3 h4
  refine ⟨p, ⟨p.originalOwner, p.currentOwner, p.path⟩, hp, ?_, rfl, rfl⟩
  unfold DraftBoard.lookupPick
  rw [board_of_snapshot_eq h,
    find?_cells_map (fun c => (c, Pick.mk ((b.lookupPick c.1 c.2).getD ⟨"", "", []⟩).originalOwner
      ((b.lookupPick c.1 c.2).getD ⟨"", "", []⟩).currentOwner
      ((b.lookupPick c.1 c.2).getD ⟨"", "", []⟩).path)) (fun c => rfl)
    gridCells gridCells_nodup (rd, slot) (mem_gridCells h1 h2 h3 h4)]
  simp only [Option.map_some', hp, Option.getD_some]

set_option maxRecDepth 100000 in
set_option maxHeartbeats 4000000 in
/-- Witness for C9: the freshly initialized board round-trips through its own
snapshot at round 5, slot 7. -/
theorem claim_C9_witness :
    ∃ p p2 : Pick, DraftBoard.init.lookupPick 5 7 = some p ∧
      (board_of_snapshot ((DraftBoard.init.to_json).getD ⟨[], 0, [], []⟩)).lookupPick 5 7
        = some p2 ∧
      p2.currentOwner = p.currentOwner ∧ p2.path = p.path := by
  have hsome : (DraftBoard.init.to_json).isSome = true := by decide
  have hs : DraftBoard.init.to_json
      = some ((DraftBoard.init.to_json).getD ⟨[], 0, [], []⟩) := by
    cases hx : DraftBoard.init.to_json with
    | none => rw [hx] at hsome; cases hsome
    | some s => rfl
  exact claim_C9 DraftBoard.init _ hs 5 7 (by decide) (by decide) (by decide) (by decide)

/-! ## C8: reconciliation comparator discrepancies -/

theorem forall₂_mem_right {α β : Type} {R : α → β → Prop} :
    ∀ {l : List α} {r : List β}, List.Forall₂ R l r → ∀ b ∈ r, ∃ a ∈ l, R a b := by
  intro l r h
  induction h with
  | nil => intro b hb; cases hb
  | cons hab _ ih =>
    intro b hb
    rcases List.mem_cons.mp hb with rfl | hb2
    · exact ⟨_, List.mem_cons_self _ _, hab⟩
    · obtain ⟨a, ha, hR⟩ := ih b hb2
      exact ⟨a, List.mem_cons_of_mem _ ha, hR⟩

theorem compare_cell_spec (b : DraftBoard) (site : Snapshot) (rd slot : Nat)
    (r : List Discrepancy) (h : compare_cell b site rd slot = some r) :
    (∀ d ∈ r, d.round = rd ∧ d.slot = slot) ∧
    r.length = (if owner_mismatch b site rd slot then 1 else 0) := by
  unfold compare_cell at h
  cases hl : b.lookupPick rd slot with
  | none => rw [hl] at h; cases h
  | some p =>
    cases hs : site_pick_at site rd slot with
    | none => rw [hl, hs] at h; cases h
    | some sp =>
      rw [hl, hs] at h
      have h' : (if p.currentOwner ≠ sp.currentOwner then
          some [Discrepancy.mk rd slot p.originalOwner p.currentOwner sp.currentOwner
            p.path sp.path]
        else some ([] : List Discrepancy)) = some r := h
      by_cases hco : p.currentOwner = sp.currentOwner
      · rw [if_neg (fun hne => hne hco)] at h'
        injection h' with h2
        subst h2
        refine ⟨fun d hd => absurd hd (List.not_mem_nil d), ?_⟩
        have hf : owner_mismatch b site rd slot = false := by
          unfold owner_mismatch
          rw [hl, hs]
          simp [hco]
        rw [hf]
        rfl
      · rw [if_pos hco] at h'
        injection h' with h2
        subst h2
        constructor
        · intro d hd
          rcases List.mem_cons.mp hd with rfl | hd2
          · exact ⟨rfl, rfl⟩
          · cases hd2
        · have ht : owner_mismatch b site rd slot = true := by
            unfold owner_mismatch
            rw [hl, hs]
            simp only [Option.map_some', bne_iff_ne, ne_eq, Option.some.injEq]
            exact hco
          rw [ht]
          rfl

theorem records_round_slot (b : DraftBoard) (site : Snapshot) :
    ∀ {cells : List (Nat × Nat)} {rs : List (List Discrepancy)},
      List.Forall₂ (fun c r => compare_cell b site c.1 c.2 = some r) cells rs →
      ∀ d ∈ rs.flatten, (d.round, d.slot) ∈ cells := by
  intro cells rs hfa d hd
  obtain ⟨r, hr, hdr⟩ := List.mem_flatten.mp hd
  obtain ⟨c, hc, hcr⟩ := forall₂_mem_right hfa r hr
  obtain ⟨h1, h2⟩ := (compare_cell_spec b site c.1 c.2 r hcr).1 d hdr
  rw [h1, h2, Prod.mk.eta]
  exact hc

theorem countP_flatten_cells (b : DraftBoard) (site : Snapshot) :
    ∀ (cells : List (Nat × Nat)) (rs : List (List Discrepancy)),
      List.Forall₂ (fun c r => compare_cell b site c.1 c.2 = some r) cells rs →
      cells.Nodup →
      ∀ rd slot, (rd, slot) ∈ cells →
        rs.flatten.countP (fun d => d.round == rd && d.slot == slot) =
          (if owner_mismatch b site rd slot then 1 else 0) := by
  intro cells rs hfa
  induction hfa with
  | nil => intro _ rd slot hmem; cases hmem
  | cons hcr htail ih =>
    rename_i c r cs rs2
    intro hnd rd slot hmem
    obtain ⟨hcnot, hndtail⟩ := List.nodup_cons.mp hnd
    rw [List.flatten_cons, List.countP_append]
    obtain ⟨hfields, hlen⟩ := compare_cell_spec b site c.1 c.2 r hcr
    rcases List.mem_cons.mp hmem with heq | hmem2
    · subst heq
      have hr : r.countP (fun d => d.round == rd && d.slot == slot) = r.length := by
        apply List.countP_eq_length.mpr
        intro d hd
        obtain ⟨h1, h2⟩ := hfields d hd
        simp [h1, h2]
      have hz : rs2.flatten.countP (fun d => d.round == rd && d.slot == slot) = 0 := by
        apply List.countP_eq_zero.mpr
        intro d hd
        have hmemd := records_round_slot b site htail d hd
        simp only [Bool.and_eq_true, beq_iff_eq]
        rintro ⟨hh1, hh2⟩
        rw [hh1, hh2] at hmemd
        exact hcnot hmemd
      rw [hr, hz, Nat.add_zero]
      exact hlen
    · have hr0 : r.countP (fun d => d.round == rd && d.slot == slot) = 0 := by
        apply List.countP_eq_zero.mpr
        intro d hd
        obtain ⟨h1, h2⟩ := hfields d hd
        simp only [Bool.and_eq_true, beq_iff_eq]
        rintro ⟨hh1, hh2⟩
        apply hcnot
        have hcc : (d.round, d.slot) = c := by
          rw [h1, h2, Prod.mk.eta]
        have hcc2 : (d.round, d.slot) = (rd, slot) := by
          rw [hh1, hh2]
        rw [← hcc, hcc2]
        exact hmem2
      rw [hr0, Nat.zero_add]
      exact ih hndtail rd slot hmem2

/-- C8: whenever the comparison loop completes, for every in-range grid cell
the returned list holds exactly one discrepancy record labelled with that
round and slot when the computed and persisted `currentOwner` differ there and
none when they agree; every record in the list points at an in-range cell that
genuinely mismatches; and if every cell's `currentOwner` matches, the list is
empty. -/
theorem claim_C8 (b : DraftBoard) (site : Snapshot) (l : List Discrepancy)
    (h : compare_with_site b site = some l) :
    (∀ rd slot, (rd, slot) ∈ gridCells →
      l.countP (fun d => d.round == rd && d.slot == slot) =
        (if owner_mismatch b site rd slot then 1 else 0)) ∧
    (∀ d ∈ l, (d.round, d.slot) ∈ gridCells ∧
      owner_mismatch b site d.round d.slot = true) ∧
    ((∀ rd slot, (rd, slot) ∈ gridCells → owner_mismatch b site rd slot = false) →
      l = []) := by
  unfold compare_with_site at h
  cases hcc : collectM gridCells (fun c => compare_cell b site c.1 c.2) with
  | none => rw [hcc] at h; cases h
  | some rs =>
    rw [hcc] at h
    simp only [Option.map_some'] at h
    injection h with h2
    subst h2
    have hfa := collectM_forall₂ _ _ _ hcc
    refine ⟨?_, ?_, ?_⟩
    · intro rd slot hmem
      exact countP_flatten_cells b site gridCells rs hfa gridCells_nodup rd slot hmem
    · intro d hd
      refine ⟨records_round_slot b site hfa d hd, ?_⟩
      obtain ⟨r, hr, hdr⟩ := List.mem_flatten.mp hd
      obtain ⟨c, hc, hcr⟩ := forall₂_mem_right hfa r hr
      obtain ⟨hfields, hlen⟩ := compare_cell_spec b site c.1 c.2 r hcr
      obtain ⟨h1, h2⟩ := hfields d hdr
      rw [h1, h2]
      cases hmm : owner_mismatch b site c.1 c.2 with
      | true => rfl
      | false =>
        have hr0 : r = [] := by
          rw [← List.length_eq_zero, hlen, hmm]
          rfl
        subst hr0
        cases hdr
    · intro hall
      rw [List.eq_nil_iff_forall_not_mem]
      intro d hd
      obtain ⟨r, hr, hdr⟩ := List.mem_flatten.mp hd
      obtain ⟨c, hc, hcr⟩ := forall₂_mem_right hfa r hr
      obtain ⟨_, hlen⟩ := compare_cell_spec b site c.1 c.2 r hcr
      have hr0 : r = [] := by
        rw [← List.length_eq_zero, hlen, hall c.1 c.2 (by rwa [Prod.mk.eta])]
        rfl
      subst hr0
      cases hdr

set_option maxRecDepth 100000 in
set_option maxHeartbeats 4000000 in
/-- Witness for C8: comparing the freshly initialized board against its own
exported snapshot yields the empty discrepancy list, and in particular zero
records at round 3, slot 4, where the owners agree. -/
theorem claim_C8_witness :
    ([] : List Discrepancy).countP (fun d => d.round == 3 && d.slot == 4) =
      (if owner_mismatch DraftBoard.init ((DraftBoard.init.to_json).getD ⟨[], 0, [], []⟩) 3 4
       then 1 else 0) :=
  (claim_C8 DraftBoard.init ((DraftBoard.init.to_json).getD ⟨[], 0, [], []⟩) []
    (by decide)).1 3 4 (by decide)

end Sandlot
